import Mathlib

/-!
The xdp-firewall control plane (`main.go`).

A shallow embedding of `src/main.go` (configuration loading, the address
codec `ipToUint32`, the population loop of the blocked-address table and the
start-up / tear-down sequence of `main`) together with the parts of the Go
standard library that `ipToUint32` calls (`net.ParseIP`, which is
`netip.ParseAddr` of Go 1.22 and later, `IP.To4`, `binary.BigEndian.Uint32`).

Conventions.
* A Go `string` is a sequence of bytes: `GoString := List Nat`, one entry per
  byte.  `goString "10.0.0.1"` is the Go string literal with that text.
* Go's `uint32` values are kept as `Nat` with an explicit `% 2 ^ 32` wherever
  the source converts or could wrap.
* A Go `(T, error)` result is `Except E T`.
* Go `for` loops become recursive functions, on the rest of the sequence the
  loop ranges over or on the number of iterations the loop can still make.
-/

namespace XdpFirewall

/-! ## Go strings -/

/-- A Go string: its bytes, in order. -/
abbrev GoString := List Nat

/-- The UTF-8 encoding of one Unicode scalar value. -/
def utf8Bytes (c : Nat) : List Nat :=
  if c < 128 then [c]
  else if c < 2048 then [192 + c / 64, 128 + c % 64]
  else if c < 65536 then [224 + c / 4096, 128 + c / 64 % 64, 128 + c % 64]
  else [240 + c / 262144, 128 + c / 4096 % 64, 128 + c / 64 % 64, 128 + c % 64]

/-- The Go string literal with the given text (Go source text is UTF-8). -/
def goString (s : String) : GoString :=
  s.toList.flatMap (fun c => utf8Bytes c.toNat)

/-! ## `getFileExtension` (main.go, lines 48-56) -/

/-- The loop `for i := len(path) - 1; i >= 0; i--` of `getFileExtension`.
The argument is `i + 1`; at `0` the loop has run off the front of the path and
the function returns `""`. -/
def getFileExtensionLoop (path : GoString) : Nat → GoString
  | 0 => []
  | i + 1 =>
    if path.getD i 0 = 46 then path.drop (i + 1)
    else getFileExtensionLoop path i

/-- Go `getFileExtension`: the text after the last `'.'` (byte 46) of the path. -/
def getFileExtension (path : GoString) : GoString :=
  getFileExtensionLoop path path.length

/-! ## `net.ParseIP` (Go standard library, `net/netip`) -/

/-- Loop of `netip.parseIPv4Fields` over `s = in[off:end]`.
Arguments: the remaining iterations, the index `i`, and the locals `val`,
`pos`, `digLen`, `fields`.  On normal loop exit the locals are returned. -/
def parseIPv4FieldsLoop (s : GoString) :
    Nat → Nat → Nat → Nat → Nat → List Nat → Except String (Nat × Nat × List Nat)
  | 0, _, val, pos, _, fields => .ok (val, pos, fields)
  | fuel + 1, i, val, pos, digLen, fields =>
    let c := s.getD i 0
    if 48 ≤ c ∧ c ≤ 57 then
      if digLen = 1 ∧ val = 0 then
        .error "IPv4 field has octet with leading zero"
      else
        let val1 := val * 10 + c - 48
        if val1 > 255 then .error "IPv4 field has value >255"
        else parseIPv4FieldsLoop s fuel (i + 1) val1 pos (digLen + 1) fields
    else if c = 46 then
      if i = 0 ∨ i = s.length - 1 ∨ s.getD (i - 1) 0 = 46 then
        .error "IPv4 field must have at least one digit"
      else if pos = 3 then .error "IPv4 address too long"
      else parseIPv4FieldsLoop s fuel (i + 1) 0 (pos + 1) 0 (fields.set pos (val % 256))
    else .error "unexpected character"

/-- Go `netip.parseIPv4Fields(in, off, end, fields)`, given `s = in[off:end]`
and the initial contents of `fields` (a slice of length 4): the four octets. -/
def parseIPv4Fields (s : GoString) (fields : List Nat) : Except String (List Nat) :=
  match parseIPv4FieldsLoop s s.length 0 0 0 0 fields with
  | .error e => .error e
  | .ok (val, pos, fields1) =>
    if pos < 3 then .error "IPv4 address too short"
    else .ok (fields1.set 3 (val % 256))

/-- The zone part of a `netip.Addr`: `z4` for an IPv4 address, `z6noz` for an
IPv6 address without zone, `zone z` for an IPv6 address with zone `z`. -/
inductive Zone where
  | z4
  | z6noz
  | zone (z : GoString)
deriving DecidableEq, Repr

/-- A `netip.Addr`: the 128-bit address as its 16 big-endian bytes (an IPv4
address is stored in IPv4-mapped form, as `AddrFrom4` does) and the zone. -/
structure Addr where
  as16 : List Nat
  z : Zone
deriving DecidableEq, Repr

/-- Go `netip.AddrFrom4`. -/
def AddrFrom4 (fields : List Nat) : Addr :=
  { as16 := [0, 0, 0, 0, 0, 0, 0, 0, 0, 0, 255, 255] ++ fields, z := .z4 }

/-- Go `netip.parseIPv4`. -/
def parseIPv4 (s : GoString) : Except String Addr :=
  match parseIPv4Fields s [0, 0, 0, 0] with
  | .error e => .error e
  | .ok fields => .ok (AddrFrom4 fields)

/-- Value of a hexadecimal digit byte, as the three branches of the inner loop
of `netip.parseIPv6` compute it; `none` for any other byte. -/
def hexVal (c : Nat) : Option Nat :=
  if 48 ≤ c ∧ c ≤ 57 then some (c - 48)
  else if 97 ≤ c ∧ c ≤ 102 then some (c - 97 + 10)
  else if 65 ≤ c ∧ c ≤ 70 then some (c - 65 + 10)
  else none

/-- Inner loop of `netip.parseIPv6` (`for ; off < len(s); off++`): reads one
group of hex digits from the front of `s`; returns `off` and `acc`. -/
def parseHexGroup : GoString → Nat → Nat → Except String (Nat × Nat)
  | [], off, acc => .ok (off, acc)
  | c :: rest, off, acc =>
    match hexVal c with
    | none => .ok (off, acc)
    | some d =>
      let acc1 := (acc * 16 + d) % 2 ^ 32
      if off > 3 then .error "each group must have 4 or less digits"
      else if acc1 > 65535 then .error "IPv6 field has value >=2^16"
      else parseHexGroup rest (off + 1) acc1

/-- Writes `vals` into `ip` starting at index `i` (`ip[i+k] = vals[k]`). -/
def setRange (ip : List Nat) (i : Nat) : List Nat → List Nat
  | [] => ip
  | v :: vs => setRange (ip.set i v) (i + 1) vs

/-- Main loop `for i < 16` of `netip.parseIPv6`.  `inp` is the whole input,
`zone` the zone split off it; the state is the rest `s` of the text, the bytes
`ip`, the index `i` and `ellipsis` (`-1` when there is none).  Each iteration
that does not leave the loop adds 2 to `i`, so 8 iterations suffice. -/
def parseIPv6Loop (inp zone : GoString) :
    Nat → GoString → List Nat → Nat → Int → Except String (GoString × List Nat × Nat × Int)
  | 0, s, ip, i, ellipsis => .ok (s, ip, i, ellipsis)
  | fuel + 1, s, ip, i, ellipsis =>
    if ¬ i < 16 then .ok (s, ip, i, ellipsis)
    else
      match parseHexGroup s 0 0 with
      | .error e => .error e
      | .ok (off, acc) =>
        if off = 0 then .error "each colon-separated field must have at least one digit"
        else if off < s.length ∧ s.getD off 0 = 46 then
          if ellipsis < 0 ∧ i ≠ 12 then
            .error "embedded IPv4 address must replace the final 2 fields of the address"
          else if i + 4 > 16 then
            .error "too many hex fields to fit an embedded IPv4 at the end of the address"
          else
            let end1 := if zone.length > 0 then inp.length - (zone.length + 1) else inp.length
            match parseIPv4Fields ((inp.take end1).drop (end1 - s.length))
                ((ip.drop i).take 4) with
            | .error e => .error e
            | .ok fields => .ok ([], setRange ip i fields, i + 4, ellipsis)
        else
          let ip1 := (ip.set i (acc / 256 % 256)).set (i + 1) (acc % 256)
          let i1 := i + 2
          let s1 := s.drop off
          if s1.length = 0 then .ok (s1, ip1, i1, ellipsis)
          else if s1.getD 0 0 ≠ 58 then .error "unexpected character, want colon"
          else if s1.length = 1 then .error "colon must be followed by more characters"
          else
            let s2 := s1.drop 1
            if s2.getD 0 0 = 58 then
              if ellipsis ≥ 0 then .error "multiple :: in address"
              else
                let s3 := s2.drop 1
                if s3.length = 0 then .ok (s3, ip1, i1, (i1 : Int))
                else parseIPv6Loop inp zone fuel s3 ip1 i1 (i1 : Int)
            else parseIPv6Loop inp zone fuel s2 ip1 i1 ellipsis

/-- Loop `for j := i - 1; j >= ellipsis; j--  { ip[j+n] = ip[j] }` of
`netip.parseIPv6`; the argument is `j + 1`. -/
def shiftLoop (n ellipsis : Nat) : Nat → List Nat → List Nat
  | 0, ip => ip
  | j + 1, ip =>
    if j ≥ ellipsis then shiftLoop n ellipsis j (ip.set (j + n) (ip.getD j 0))
    else ip

/-- Go `clear(ip[lo : lo+n])`. -/
def clearRange (ip : List Nat) (lo n : Nat) : List Nat :=
  setRange ip lo (List.replicate n 0)

/-- Go `bytealg.IndexByteString(s, c)`: index of the first `c`, if any. -/
def indexByte (s : GoString) (c : Nat) : Option Nat :=
  let i := s.indexOf c
  if i < s.length then some i else none

/-- Go `netip.parseIPv6`. -/
def parseIPv6 (inp : GoString) : Except String Addr :=
  let split : Except String (GoString × GoString) :=
    match indexByte inp 37 with
    | none => .ok (inp, [])
    | some i =>
      if inp.drop (i + 1) = [] then .error "zone must be a non-empty string"
      else .ok (inp.take i, inp.drop (i + 1))
  match split with
  | .error e => .error e
  | .ok (s0, zone) =>
    let z : Zone := if zone = [] then .z6noz else .zone zone
    let ip0 := List.replicate 16 0
    let lead := s0.length ≥ 2 ∧ s0.getD 0 0 = 58 ∧ s0.getD 1 0 = 58
    let s1 := if lead then s0.drop 2 else s0
    let ellipsis0 : Int := if lead then 0 else -1
    if lead ∧ s1.length = 0 then .ok { as16 := ip0, z := z }
    else
      match parseIPv6Loop inp zone 8 s1 ip0 0 ellipsis0 with
      | .error e => .error e
      | .ok (s, ip, i, ellipsis) =>
        if s.length ≠ 0 then .error "trailing garbage after address"
        else if i < 16 then
          if ellipsis < 0 then .error "address string too short"
          else
            let n := 16 - i
            let ip1 := shiftLoop n ellipsis.toNat i ip
            .ok { as16 := clearRange ip1 ellipsis.toNat n, z := z }
        else if ellipsis ≥ 0 then
          .error "the :: must expand to at least one field of zeros"
        else .ok { as16 := ip, z := z }

/-- Loop of Go `netip.ParseAddr`: dispatch on the first `'.'`, `':'` or `'%'`
of the text `rest` (a suffix of `s`). -/
def parseAddrLoop (s : GoString) : GoString → Except String Addr
  | [] => .error "unable to parse IP"
  | c :: rest =>
    if c = 46 then parseIPv4 s
    else if c = 58 then parseIPv6 s
    else if c = 37 then .error "missing IPv6 address"
    else parseAddrLoop s rest

/-- Go `netip.ParseAddr`. -/
def ParseAddr (s : GoString) : Except String Addr :=
  parseAddrLoop s s

/-- Go `net.ParseIP`: the 16-byte form of the address, or `none` (Go `nil`)
when the text is not an IP address or carries a zone. -/
def ParseIP (s : GoString) : Option (List Nat) :=
  match ParseAddr s with
  | .error _ => none
  | .ok addr =>
    match addr.z with
    | .zone _ => none
    | _ => some addr.as16

/-- Go `IP.To4`: the 4-byte form of an IPv4 address (a 4-byte slice, or a
16-byte slice in IPv4-mapped form), otherwise `none` (Go `nil`). -/
def To4 (ip : List Nat) : Option (List Nat) :=
  if ip.length = 4 then some ip
  else if ip.length = 16 ∧ (ip.take 10).all (fun b => b == 0) ∧
      ip.getD 10 0 = 255 ∧ ip.getD 11 0 = 255 then
    some ((ip.drop 12).take 4)
  else none

/-- Go `binary.BigEndian.Uint32`. -/
def bigEndianUint32 (b : List Nat) : Nat :=
  (b.getD 3 0 + b.getD 2 0 * 2 ^ 8 + b.getD 1 0 * 2 ^ 16 + b.getD 0 0 * 2 ^ 24) % 2 ^ 32

/-! ## `ipToUint32` (main.go, lines 58-68) -/

/-- The two errors of `ipToUint32`, each carrying the offending text. -/
inductive IpError where
  /-- Go `fmt.Errorf("invalid IP address: %s", ip)` -/
  | invalidIP (ip : GoString)
  /-- Go `fmt.Errorf("not an IPv4 address: %s", ip)` -/
  | notIPv4 (ip : GoString)
deriving DecidableEq, Repr

/-- Go `ipToUint32`. -/
def ipToUint32 (ip : GoString) : Except IpError Nat :=
  match ParseIP ip with
  | none => .error (.invalidIP ip)
  | some parsedIP =>
    match To4 parsedIP with
    | none => .error (.notIPv4 ip)
    | some ipv4 => .ok (bigEndianUint32 ipv4)

/-! ## Configuration (main.go, lines 17-46) -/

/-- Go `Config`: the decoded configuration file. -/
structure Config where
  BlockedIPs : List GoString
deriving DecidableEq, Repr

/-- The errors of `loadConfig`, one per `fmt.Errorf` of the function. -/
inductive ConfigError where
  /-- Go `"Failed to open config file: %w"` -/
  | openFailed (err : String)
  /-- Go `"Failed to parse YAML: %w"` -/
  | parseYAML (err : String)
  /-- Go `"Failed to parse JSON: %w"` -/
  | parseJSON (err : String)
  /-- Go `"unsupported file extension: %s"` -/
  | unsupportedExtension (ext : GoString)
deriving DecidableEq, Repr

/-- The file system and the two decoders that `loadConfig` calls: `os.Open`
(giving the file's bytes), `yaml.NewDecoder(file).Decode` and
`json.NewDecoder(file).Decode`. -/
structure ConfigEnv where
  osOpen : GoString → Except String (List Nat)
  yamlDecode : List Nat → Except String Config
  jsonDecode : List Nat → Except String Config

/-- Go `loadConfig`.  The deferred `file.Close()` does not bear on the result. -/
def loadConfig (env : ConfigEnv) (path : GoString) : Except ConfigError Config :=
  match env.osOpen path with
  | .error err => .error (.openFailed err)
  | .ok file =>
    let ext := getFileExtension path
    if ext = goString "yaml" ∨ ext = goString "yml" then
      match env.yamlDecode file with
      | .error err => .error (.parseYAML err)
      | .ok config => .ok config
    else if ext = goString "json" then
      match env.jsonDecode file with
      | .error err => .error (.parseJSON err)
      | .ok config => .ok config
    else .error (.unsupportedExtension ext)

/-! ## The effects of `main` (main.go, lines 70-134) -/

/-- The observable actions of `main`, in the order they are performed. -/
inductive Effect where
  /-- Go `log.Fatalf("usage: ...")`, the process exits with status 1 -/
  | fatalUsage
  /-- the call `loadConfig(configPath)` -/
  | loadConfig (path : GoString)
  /-- Go `log.Fatalf("failed to load config: %v", err)` -/
  | fatalConfig (err : ConfigError)
  /-- Go `fmt.Printf("Loaded configuration: %+v", config)` -/
  | printLoaded (config : Config)
  /-- the call `loadDropObjects(&objs, nil)` -/
  | loadDropObjects
  /-- Go `log.Fatalf("loading objects: %v", err)` -/
  | fatalObjects (err : String)
  /-- Go `log.Printf("invalid IP address in config: %s", ip)` -/
  | logInvalidIP (ip : GoString)
  /-- the call `objs.BlockedIpMap.Put(key, ipUint32)` -/
  | mapPut (key value : Nat)
  /-- Go `log.Printf("failed to add IP to map: %v", err)` -/
  | logPutFailed (err : String)
  /-- the call `net.InterfaceByName(ifaceName)` -/
  | interfaceByName (name : GoString)
  /-- Go `log.Fatalf("getting interface %s: %v", ifaceName, err)` -/
  | fatalInterface (name : GoString) (err : String)
  /-- the call `link.AttachXDP(...)` with the interface index -/
  | attachXDP (index : Nat)
  /-- Go `log.Fatalf("attaching XDP program to interface %s: %v", ifaceName, err)` -/
  | fatalAttach (name : GoString) (err : String)
  /-- Go `fmt.Printf("Attached XDP program to interface %s", ifaceName)` -/
  | printAttached (name : GoString)
  /-- Go `<-sig`, the wait for SIGINT or SIGTERM -/
  | waitSignal
  /-- Go `fmt.Println("Detaching XDP program and exiting")` -/
  | printDetaching
  /-- deferred `link.Close()`: the program is detached from the interface -/
  | linkClose
  /-- deferred `objs.Close()`: the loaded program and its map are released -/
  | objsClose
deriving DecidableEq, Repr

/-! ## The population loop (main.go, lines 91-102) -/

/-- The loop `for i, ip := range config.BlockedIPs` of `main`, from index `i`
on, over a table of type `T` whose store operation `BlockedIpMap.Put` is
`put`.  Returns the table after the loop and the effects of the loop. -/
def populateLoop {T : Type} (put : T → Nat → Nat → Except String T) :
    List GoString → Nat → T → T × List Effect
  | [], _, table => (table, [])
  | ip :: rest, i, table =>
    match ipToUint32 ip with
    | .error _ =>
      let r := populateLoop put rest (i + 1) table
      (r.1, Effect.logInvalidIP ip :: r.2)
    | .ok ipUint32 =>
      let key := i % 2 ^ 32
      match put table key ipUint32 with
      | .error err =>
        let r := populateLoop put rest (i + 1) table
        (r.1, Effect.mapPut key ipUint32 :: Effect.logPutFailed err :: r.2)
      | .ok table1 =>
        let r := populateLoop put rest (i + 1) table1
        (r.1, Effect.mapPut key ipUint32 :: r.2)

/-- The population loop of `main`, run from its start (`i = 0`). -/
def populate {T : Type} (put : T → Nat → Nat → Except String T)
    (blockedIPs : List GoString) (table : T) : T × List Effect :=
  populateLoop put blockedIPs 0 table

/-! ## `main` (main.go, lines 70-134) -/

/-- Everything outside the process that `main` depends on: the arguments, the
file system and decoders, the loader of the generated eBPF objects (giving the
table `BlockedIpMap` as loaded), the table's store operation, the interface
lookup, the XDP attach call, and whether a termination signal ever arrives. -/
structure World (T : Type) where
  args : List GoString
  config : ConfigEnv
  loadDropObjects : Except String T
  put : T → Nat → Nat → Except String T
  interfaceByName : GoString → Except String Nat
  attachXDP : Nat → Except String Unit
  signalArrives : Bool

/-- How a run of `main` ends: with an exit status, or never (blocked in
`<-sig`). -/
inductive Ending where
  | exit (status : Nat)
  | blocked
deriving DecidableEq, Repr

/-- Go `main`: the effects of a run, in order, and how the run ends.
`log.Fatalf` exits the process at once (deferred calls do not run); on the
normal return the deferred calls run last-in first-out. -/
def main {T : Type} (w : World T) : List Effect × Ending :=
  if w.args.length < 2 then ([.fatalUsage], .exit 1)
  else
    let configPath := w.args.getD 1 []
    match loadConfig w.config configPath with
    | .error err => ([.loadConfig configPath, .fatalConfig err], .exit 1)
    | .ok config =>
      let t1 := [Effect.loadConfig configPath, Effect.printLoaded config]
      match w.loadDropObjects with
      | .error err => (t1 ++ [.loadDropObjects, .fatalObjects err], .exit 1)
      | .ok objs =>
        let t2 := t1 ++ [.loadDropObjects] ++ (populate w.put config.BlockedIPs objs).2
        let ifaceName := if w.args.length > 2 then w.args.getD 2 [] else goString "eth0"
        match w.interfaceByName ifaceName with
        | .error err =>
          (t2 ++ [.interfaceByName ifaceName, .fatalInterface ifaceName err], .exit 1)
        | .ok index =>
          match w.attachXDP index with
          | .error err =>
            (t2 ++ [.interfaceByName ifaceName, .attachXDP index,
              .fatalAttach ifaceName err], .exit 1)
          | .ok _ =>
            let t3 := t2 ++ [.interfaceByName ifaceName, .attachXDP index,
              .printAttached ifaceName, .waitSignal]
            if w.signalArrives then
              (t3 ++ [.printDetaching, .linkClose, .objsClose], .exit 0)
            else (t3, .blocked)

/-! ## The blocked-address table -/

/-- Modelled from the spec: the table `BlockedIpMap` is declared in the
generated eBPF objects, which are not among the sources.  Following the spec
("a mapping from a small unsigned integer slot index to a BlockedAddress",
"an array-like structure indexed by dense integer slot", "a fixed maximum
capacity") it is a sequence of `capacity` slots, each empty or holding one
32-bit value. -/
structure BlockTable where
  slots : List (Option Nat)
deriving DecidableEq, Repr

/-- Modelled from the spec: a fresh (empty) table with `capacity` slots. -/
def BlockTable.fresh (capacity : Nat) : BlockTable :=
  { slots := List.replicate capacity none }

/-- Modelled from the spec: the store operation `BlockedIpMap.Put(key, value)`.
It is a single store to the slot `key`; for a slot beyond the capacity it
fails and leaves the table unchanged. -/
def BlockTable.Put (t : BlockTable) (key value : Nat) : Except String BlockTable :=
  if key < t.slots.length then .ok { slots := t.slots.set key (some value) }
  else .error "capacity exceeded"

/-- Modelled from the spec: `Lookup(candidate)`, true iff the candidate equals
some value currently stored in the table. -/
def BlockTable.Lookup (t : BlockTable) (candidate : Nat) : Bool :=
  t.slots.contains (some candidate)

/-! ## Specification-side definitions -/

/-- Decimal text of an octet (`0..255`), without leading zeros. -/
def formatOctet (n : Nat) : GoString :=
  if n < 10 then [48 + n]
  else if n < 100 then [48 + n / 10, 48 + n % 10]
  else [48 + n / 100, 48 + n / 10 % 10, 48 + n % 10]

/-- The dotted-quad text `a.b.c.d`. -/
def dottedQuad (a b c d : Nat) : GoString :=
  formatOctet a ++ 46 :: (formatOctet b ++ 46 :: (formatOctet c ++ 46 :: formatOctet d))

/-- Decoding of a 32-bit value: its four big-endian bytes printed as decimal
octets joined by `'.'`. -/
def decodeUint32 (v : Nat) : GoString :=
  dottedQuad (v / 2 ^ 24 % 256) (v / 2 ^ 16 % 256) (v / 2 ^ 8 % 256) (v % 256)

/-- The `mapPut` effects of a trace, as (key, value) pairs in order. -/
def putsOf : List Effect → List (Nat × Nat)
  | [] => []
  | .mapPut key value :: rest => (key, value) :: putsOf rest
  | _ :: rest => putsOf rest

/-- The texts reported by `logInvalidIP` effects of a trace, in order. -/
def rejectedOf : List Effect → List GoString
  | [] => []
  | .logInvalidIP ip :: rest => ip :: rejectedOf rest
  | _ :: rest => rejectedOf rest

/-! ## Definitions used by the statements and proofs -/

/-- A sample environment: every file opens (and is empty), the YAML decoder
returns a configuration with one address, the JSON decoder fails. -/
def sampleConfigEnv : ConfigEnv :=
  { osOpen := fun _ => .ok [],
    yamlDecode := fun _ => .ok { BlockedIPs := [goString "10.0.0.1"] },
    jsonDecode := fun _ => .error "unexpected end of JSON input" }

/-- Whether `ipToUint32` accepts the text. -/
def encodes (ip : GoString) : Bool :=
  match ipToUint32 ip with
  | .ok _ => true
  | .error _ => false

/-- The value `ipToUint32` returns for the text, if it accepts it. -/
def encoding (ip : GoString) : Option Nat :=
  match ipToUint32 ip with
  | .ok v => some v
  | .error _ => none

/-- The write the population loop makes for the entry at position `p.1` with
text `p.2`, if any: slot `uint32(i)`, value `ipToUint32(ip)`. -/
def writeOf (p : Nat × GoString) : Option (Nat × Nat) :=
  match ipToUint32 p.2 with
  | .ok v => some (p.1 % 2 ^ 32, v)
  | .error _ => none

/-- The sample configuration `10.0.0.1, garbage, 10.0.0.2`. -/
def sampleBlockedIPs : List GoString :=
  [goString "10.0.0.1", goString "garbage", goString "10.0.0.2"]

/-- The steps of the control plane's start-up and tear-down sequence. -/
inductive Step where
  | loadConfig
  | loadProgram
  | tableWrite
  | resolveInterface
  | attach
  | waitSignal
  | detach
  | release
deriving DecidableEq, Repr

/-- The step an effect of `main` performs; `none` for log and print output. -/
def stepOf : Effect → Option Step
  | .loadConfig _ => some .loadConfig
  | .loadDropObjects => some .loadProgram
  | .mapPut _ _ => some .tableWrite
  | .interfaceByName _ => some .resolveInterface
  | .attachXDP _ => some .attach
  | .waitSignal => some .waitSignal
  | .linkClose => some .detach
  | .objsClose => some .release
  | _ => none

/-- The steps of a trace, in order. -/
def stepsOf (trace : List Effect) : List Step :=
  trace.filterMap stepOf

/-- The whole sequence of steps of a run that makes `n` table writes. -/
def fullSequence (n : Nat) : List Step :=
  [.loadConfig, .loadProgram] ++ List.replicate n .tableWrite ++
    [.resolveInterface, .attach, .waitSignal, .detach, .release]

/-- A sample world: the configuration loads, the program loads, and the
interface does not exist. -/
def sampleWorld : World BlockTable :=
  { args := [goString "xdp-firewall", goString "config.yaml"],
    config := sampleConfigEnv,
    loadDropObjects := .ok (BlockTable.fresh 0),
    put := BlockTable.Put,
    interfaceByName := fun _ => .error "no such network interface",
    attachXDP := fun _ => .ok (),
    signalArrives := true }

/-- The text of the completed fields: each octet followed by `'.'`. -/
def renderFields (fs : List Nat) : GoString :=
  fs.flatMap (fun f => formatOctet f ++ [46])

/-- Invariant of the loop of `parseIPv4Fields` after the prefix `pre` of the
text, with `rest` still to read. -/
def V4Inv (pre rest : GoString) (val pos digLen : Nat) (fields : List Nat) : Prop :=
  pos ≤ 3 ∧ fields.length = 4 ∧ (∀ f ∈ fields.take pos, f < 256) ∧ val ≤ 255 ∧
  ((digLen = 0 ∧ val = 0 ∧ pre = renderFields (fields.take pos) ∧ (pos = 0 ∨ rest ≠ [])) ∨
   (digLen = (formatOctet val).length ∧
      pre = renderFields (fields.take pos) ++ formatOctet val))

/-- A 16-byte address: 16 entries, each a byte. -/
def Bytes16 (ip : List Nat) : Prop :=
  ip.length = 16 ∧ ∀ x ∈ ip, x < 256

/-- The first twelve bytes of the 16-byte form of an IPv4 (IPv4-mapped) address. -/
def v4MappedHead : List Nat := [0, 0, 0, 0, 0, 0, 0, 0, 0, 0, 255, 255]

/-! ## Lemmas -/

theorem getD_append_cons (pre : List Nat) (c : Nat) (rest : List Nat) (d : Nat) :
    (pre ++ c :: rest).getD pre.length d = c := by
  rw [List.getD_eq_getElem?_getD, List.getElem?_append_right (le_refl _)]
  simp

theorem getD_append_cons_add (pre : List Nat) (c : Nat) (rest : List Nat) (d k : Nat) :
    (pre ++ c :: rest).getD (pre.length + 1 + k) d = rest.getD k d := by
  rw [List.getD_eq_getElem?_getD, List.getElem?_append_right (by omega)]
  have : pre.length + 1 + k - pre.length = k + 1 := by omega
  rw [this, List.getElem?_cons_succ, List.getD_eq_getElem?_getD]

theorem getFileExtensionLoop_none (path : GoString) :
    ∀ n, (∀ j, j < n → path.getD j 0 ≠ 46) → getFileExtensionLoop path n = [] := by
  intro n
  induction n with
  | zero => intro _; rfl
  | succ n ih =>
    intro h
    have h1 : path.getD n 0 ≠ 46 := h n (Nat.lt_succ_self n)
    simp only [getFileExtensionLoop, h1, if_false]
    exact ih (fun j hj => h j (Nat.lt_succ_of_lt hj))

theorem getFileExtensionLoop_last (path : GoString) (p : Nat) (hp : path.getD p 0 = 46) :
    ∀ n, p < n → (∀ j, p < j → j < n → path.getD j 0 ≠ 46) →
      getFileExtensionLoop path n = path.drop (p + 1) := by
  intro n
  induction n with
  | zero => intro h; omega
  | succ n ih =>
    intro hlt h
    by_cases hn : p = n
    · subst hn
      simp only [getFileExtensionLoop, hp, if_true]
    · have h1 : path.getD n 0 ≠ 46 := h n (by omega) (Nat.lt_succ_self n)
      simp only [getFileExtensionLoop, h1, if_false]
      exact ih (by omega) (fun j hj hj2 => h j hj (Nat.lt_succ_of_lt hj2))

theorem getFileExtension_no_dot (path : GoString) (h : 46 ∉ path) :
    getFileExtension path = [] := by
  apply getFileExtensionLoop_none
  intro j hj heq
  apply h
  rw [← heq, List.getD_eq_getElem path 0 hj]
  exact List.getElem_mem hj

theorem getFileExtension_after_last_dot (pre suf : GoString) (h : 46 ∉ suf) :
    getFileExtension (pre ++ 46 :: suf) = suf := by
  have hp : (pre ++ 46 :: suf).getD pre.length 0 = 46 := getD_append_cons pre 46 suf 0
  have hlen : (pre ++ 46 :: suf).length = pre.length + 1 + suf.length := by
    simp; omega
  have := getFileExtensionLoop_last (pre ++ 46 :: suf) pre.length hp (pre ++ 46 :: suf).length
    (by omega) (by
      intro j hj hj2 heq
      apply h
      obtain ⟨k, rfl⟩ : ∃ k, j = pre.length + 1 + k := ⟨j - pre.length - 1, by omega⟩
      rw [getD_append_cons_add] at heq
      have hk : k < suf.length := by omega
      rw [← heq, List.getD_eq_getElem suf 0 hk]
      exact List.getElem_mem hk)
  rw [getFileExtension, this]
  simp

theorem putsOf_populateLoop {T : Type} (put : T → Nat → Nat → Except String T) :
    ∀ (xs : List GoString) (i : Nat) (t : T),
      putsOf (populateLoop put xs i t).2 = (xs.enumFrom i).filterMap writeOf := by
  intro xs
  induction xs with
  | nil => intro i t; rfl
  | cons x xs ih =>
    intro i t
    simp only [populateLoop, List.enumFrom_cons]
    cases hx : ipToUint32 x with
    | error e =>
      simp only [putsOf]
      rw [List.filterMap_cons_none (by simp [writeOf, hx])]
      exact ih (i + 1) t
    | ok v =>
      simp only
      rw [List.filterMap_cons_some (show writeOf (i, x) = some (i % 2 ^ 32, v) by simp only [writeOf, hx])]
      cases hp : put t (i % 2 ^ 32) v with
      | error e => simp only [putsOf]; rw [ih (i + 1) t]
      | ok t1 => simp only [putsOf]; rw [ih (i + 1) t1]

theorem rejectedOf_populateLoop {T : Type} (put : T → Nat → Nat → Except String T) :
    ∀ (xs : List GoString) (i : Nat) (t : T),
      rejectedOf (populateLoop put xs i t).2 = xs.filter (fun s => ! encodes s) := by
  intro xs
  induction xs with
  | nil => intro i t; rfl
  | cons x xs ih =>
    intro i t
    simp only [populateLoop]
    cases hx : ipToUint32 x with
    | error e =>
      simp only [rejectedOf]
      rw [List.filter_cons_of_pos (by simp [encodes, hx]), ih (i + 1) t]
    | ok v =>
      simp only
      rw [List.filter_cons_of_neg (by simp [encodes, hx])]
      cases hp : put t (i % 2 ^ 32) v with
      | error e => simp only [rejectedOf]; rw [ih (i + 1) t]
      | ok t1 => simp only [rejectedOf]; rw [ih (i + 1) t1]

theorem filterMap_writeOf_snd :
    ∀ (xs : List GoString) (i : Nat),
      ((xs.enumFrom i).filterMap writeOf).map Prod.snd = xs.filterMap encoding := by
  intro xs
  induction xs with
  | nil => intro i; rfl
  | cons x xs ih =>
    intro i
    simp only [List.enumFrom_cons]
    cases hx : ipToUint32 x with
    | error e =>
      rw [List.filterMap_cons_none (by simp [writeOf, hx]),
        List.filterMap_cons_none (by simp [encoding, hx])]
      exact ih (i + 1)
    | ok v =>
      rw [List.filterMap_cons_some (show writeOf (i, x) = some (i % 2 ^ 32, v) by simp only [writeOf, hx]),
        List.filterMap_cons_some (show encoding x = some v by simp only [encoding, hx])]
      simp only [List.map_cons, ih (i + 1)]

theorem filterMap_encoding_length (xs : List GoString) :
    (xs.filterMap encoding).length = (xs.filter encodes).length := by
  induction xs with
  | nil => rfl
  | cons x xs ih =>
    cases hx : ipToUint32 x with
    | error e =>
      rw [List.filterMap_cons_none (by simp [encoding, hx]),
        List.filter_cons_of_neg (by simp [encodes, hx]), ih]
    | ok v =>
      rw [List.filterMap_cons_some (show encoding x = some v by simp only [encoding, hx]),
        List.filter_cons_of_pos (by simp [encodes, hx])]
      simp [ih]

theorem filterMap_writeOf_fst_of_all :
    ∀ (xs : List GoString) (i : Nat), (∀ s ∈ xs, encodes s = true) → i + xs.length ≤ 2 ^ 32 →
      ((xs.enumFrom i).filterMap writeOf).map Prod.fst = List.range' i xs.length := by
  intro xs
  induction xs with
  | nil => intro i _ _; rfl
  | cons x xs ih =>
    intro i hall hlen
    simp only [List.enumFrom_cons]
    have hx : encodes x = true := hall x (List.mem_cons_self _ _)
    simp only [List.length_cons] at hlen
    cases hv : ipToUint32 x with
    | error e => simp [encodes, hv] at hx
    | ok v =>
      rw [List.filterMap_cons_some (show writeOf (i, x) = some (i % 2 ^ 32, v) by simp only [writeOf, hv])]
      simp only [List.map_cons, List.length_cons, List.range'_succ]
      rw [ih (i + 1) (fun s hs => hall s (List.mem_cons_of_mem _ hs)) (by omega)]
      rw [Nat.mod_eq_of_lt (by omega)]

theorem populateLoop_append {T : Type} (put : T → Nat → Nat → Except String T) :
    ∀ (xs ys : List GoString) (i : Nat) (t : T),
      populateLoop put (xs ++ ys) i t =
        ((populateLoop put ys (i + xs.length) (populateLoop put xs i t).1).1,
          (populateLoop put xs i t).2 ++
            (populateLoop put ys (i + xs.length) (populateLoop put xs i t).1).2) := by
  intro xs
  induction xs with
  | nil => intro ys i t; simp [populateLoop]
  | cons x xs ih =>
    intro ys i t
    have hlen : i + (x :: xs).length = i + 1 + xs.length := by
      simp only [List.length_cons]; omega
    rw [hlen]
    simp only [List.cons_append, populateLoop, List.append_eq]
    cases hx : ipToUint32 x with
    | error e => simp only [ih ys (i + 1) t, List.cons_append]
    | ok v =>
      simp only
      cases hp : put t (i % 2 ^ 32) v with
      | error e => simp only [ih ys (i + 1) t, List.cons_append]
      | ok t1 => simp only [ih ys (i + 1) t1, List.cons_append]

theorem blockTable_lookup_iff (t : BlockTable) (c : Nat) :
    t.Lookup c = true ↔ some c ∈ t.slots := by
  simp [BlockTable.Lookup]

theorem mem_set_of_empty (l : List (Option Nat)) (i v c : Nat) (hi : i < l.length)
    (hnone : l[i]? = some none) :
    some c ∈ l.set i (some v) ↔ some c ∈ l ∨ c = v := by
  simp only [List.mem_iff_getElem?, List.getElem?_set, hi, if_true]
  constructor
  · rintro ⟨n, hn⟩
    by_cases h : i = n
    · simp only [h, if_true] at hn
      right
      exact (Option.some.inj (Option.some.inj hn)).symm
    · simp only [h, if_false] at hn
      exact Or.inl ⟨n, hn⟩
  · rintro (⟨n, hn⟩ | h)
    · refine ⟨n, ?_⟩
      have : i ≠ n := by
        rintro rfl
        rw [hnone] at hn
        cases hn
      simp only [this, if_false, hn]
    · exact ⟨i, by simp [h]⟩

theorem populateLoop_stored :
    ∀ (xs : List GoString) (i : Nat) (t : BlockTable),
      i + xs.length ≤ t.slots.length → t.slots.length ≤ 2 ^ 32 →
      (∀ j, i ≤ j → j < t.slots.length → t.slots[j]? = some none) →
      ∀ c, some c ∈ (populateLoop BlockTable.Put xs i t).1.slots ↔
        (some c ∈ t.slots ∨ ∃ s ∈ xs, ipToUint32 s = .ok c) := by
  intro xs
  induction xs with
  | nil => intro i t _ _ _ c; simp [populateLoop]
  | cons x xs ih =>
    intro i t hlen h32 hfree c
    simp only [List.length_cons] at hlen
    simp only [populateLoop]
    cases hx : ipToUint32 x with
    | error e =>
      simp only
      rw [ih (i + 1) t (by omega) h32 (fun j hj => hfree j (by omega)) c]
      simp only [List.mem_cons, exists_eq_or_imp, hx]
      simp
    | ok v =>
      have hkey : i % 2 ^ 32 = i := Nat.mod_eq_of_lt (by omega)
      have hi : i < t.slots.length := by omega
      simp only [hkey, BlockTable.Put, hi, if_true]
      rw [ih (i + 1) _ (by simp only [List.length_set]; omega)
        (by simp only [List.length_set]; exact h32)
        (by
          intro j hj hj2
          simp only [List.length_set] at hj2
          rw [List.getElem?_set_ne (by omega)]
          exact hfree j (by omega) hj2) c]
      rw [mem_set_of_empty t.slots i v c hi (hfree i (le_refl i) hi)]
      simp only [List.mem_cons, exists_eq_or_imp, hx, Except.ok.injEq]
      constructor
      · rintro ((h | h) | h)
        · exact Or.inl h
        · exact Or.inr (Or.inl h.symm)
        · exact Or.inr (Or.inr h)
      · rintro (h | h | h)
        · exact Or.inl (Or.inl h)
        · exact Or.inl (Or.inr h.symm)
        · exact Or.inr h

theorem populateLoop_slots :
    ∀ (xs : List GoString) (i cap : Nat), ∃ f : Nat → Option (Option Nat),
      ∀ t : BlockTable, t.slots.length = cap →
        (populateLoop BlockTable.Put xs i t).1.slots.length = cap ∧
        ∀ k, (populateLoop BlockTable.Put xs i t).1.slots[k]? = (f k <|> t.slots[k]?) := by
  intro xs
  induction xs with
  | nil => intro i cap; exact ⟨fun _ => none, fun t ht => ⟨ht, fun k => by simp [populateLoop]⟩⟩
  | cons x xs ih =>
    intro i cap
    obtain ⟨f, hf⟩ := ih (i + 1) cap
    cases hx : ipToUint32 x with
    | error e =>
      refine ⟨f, fun t ht => ?_⟩
      simp only [populateLoop, hx]
      exact hf t ht
    | ok v =>
      by_cases hk : i % 2 ^ 32 < cap
      · refine ⟨fun k => f k <|> (if i % 2 ^ 32 = k then some (some v) else none), fun t ht => ?_⟩
        have hk2 : i % 2 ^ 32 < t.slots.length := by rw [ht]; exact hk
        simp only [populateLoop, hx, BlockTable.Put, hk2, if_true]
        have h1 := hf { slots := t.slots.set (i % 2 ^ 32) (some v) }
          (by simp only [List.length_set]; exact ht)
        refine ⟨h1.1, fun k => ?_⟩
        rw [h1.2 k, List.getElem?_set]
        by_cases hik : i % 2 ^ 32 = k
        · subst hik
          simp only [if_true, hk2]
          cases f (i % 2 ^ 32) <;> simp
        · simp only [hik, if_false]
          cases f k <;> simp
      · refine ⟨f, fun t ht => ?_⟩
        have hk2 : ¬ i % 2 ^ 32 < t.slots.length := by rw [ht]; exact hk
        simp only [populateLoop, hx, BlockTable.Put, hk2, if_false]
        exact hf t ht

theorem stepsOf_populateLoop {T : Type} (put : T → Nat → Nat → Except String T) :
    ∀ (xs : List GoString) (i : Nat) (t : T),
      stepsOf (populateLoop put xs i t).2
        = List.replicate (xs.filter encodes).length Step.tableWrite := by
  intro xs
  induction xs with
  | nil => intro i t; rfl
  | cons x xs ih =>
    intro i t
    simp only [populateLoop]
    cases hx : ipToUint32 x with
    | error e =>
      rw [List.filter_cons_of_neg (by simp [encodes, hx])]
      simp only [stepsOf, List.filterMap_cons, stepOf]
      exact ih (i + 1) t
    | ok v =>
      rw [List.filter_cons_of_pos (by simp [encodes, hx])]
      simp only
      cases hp : put t (i % 2 ^ 32) v with
      | error e =>
        simp only [stepsOf, List.filterMap_cons, stepOf, List.length_cons, List.replicate_succ]
        rw [← ih (i + 1) t]; rfl
      | ok t1 =>
        simp only [stepsOf, List.filterMap_cons, stepOf, List.length_cons, List.replicate_succ]
        rw [← ih (i + 1) t1]; rfl

theorem stepsOf_append (a b : List Effect) : stepsOf (a ++ b) = stepsOf a ++ stepsOf b := by
  simp [stepsOf]

theorem stepsOf_populate {T : Type} (put : T → Nat → Nat → Except String T)
    (xs : List GoString) (t : T) :
    stepsOf (populate put xs t).2 = List.replicate (xs.filter encodes).length Step.tableWrite :=
  stepsOf_populateLoop put xs 0 t

theorem filterMap_stepOf_populate {T : Type} (put : T → Nat → Nat → Except String T)
    (xs : List GoString) (t : T) :
    List.filterMap stepOf (populate put xs t).2
      = List.replicate (xs.filter encodes).length Step.tableWrite :=
  stepsOf_populateLoop put xs 0 t

theorem main_steps_shape {T : Type} (w : World T) :
    ∃ n, stepsOf (main w).1 = fullSequence n ∨
      stepsOf (main w).1 <+: [Step.loadConfig, Step.loadProgram] ++
        List.replicate n Step.tableWrite ++ [Step.resolveInterface, Step.attach, Step.waitSignal] := by
  unfold main
  by_cases h2 : w.args.length < 2
  · exact ⟨0, Or.inr (by simp [h2, stepsOf, stepOf])⟩
  · simp only [h2, if_false]
    cases hc : loadConfig w.config (w.args.getD 1 []) with
    | error e => exact ⟨0, Or.inr ⟨[.loadProgram, .resolveInterface, .attach, .waitSignal], rfl⟩⟩
    | ok config =>
      simp only
      cases ho : w.loadDropObjects with
      | error e => exact ⟨0, Or.inr ⟨[.resolveInterface, .attach, .waitSignal], rfl⟩⟩
      | ok objs =>
        simp only
        refine ⟨(config.BlockedIPs.filter encodes).length, ?_⟩
        cases hi : w.interfaceByName
            (if w.args.length > 2 then w.args.getD 2 [] else goString "eth0") with
        | error e =>
          refine Or.inr ⟨[.attach, .waitSignal], ?_⟩
          simp [stepsOf, filterMap_stepOf_populate, stepOf]
        | ok index =>
          simp only
          cases ha : w.attachXDP index with
          | error e =>
            refine Or.inr ⟨[.waitSignal], ?_⟩
            simp [stepsOf, filterMap_stepOf_populate, stepOf]
          | ok u =>
            simp only
            cases hs : w.signalArrives with
            | true =>
              left
              simp [stepsOf, filterMap_stepOf_populate, stepOf, fullSequence]
            | false =>
              refine Or.inr ⟨[], ?_⟩
              simp [stepsOf, filterMap_stepOf_populate, stepOf]

theorem fullSequence_no_write_after_attach (n : Nat) :
    (fullSequence n).Pairwise (fun a b => a = Step.attach → b ≠ Step.tableWrite) := by
  simp [fullSequence, List.pairwise_append, List.mem_replicate]

theorem fullSequence_no_detach_after_release (n : Nat) :
    (fullSequence n).Pairwise (fun a b => a = Step.release → b ≠ Step.detach) := by
  simp [fullSequence, List.pairwise_append, List.mem_replicate]

theorem fullSequence_extends (n : Nat) :
    [Step.loadConfig, Step.loadProgram] ++ List.replicate n Step.tableWrite ++
      [Step.resolveInterface, Step.attach, Step.waitSignal] <+: fullSequence n :=
  ⟨[.detach, .release], by simp [fullSequence]⟩

theorem getD_pred_append (pre : List Nat) (c : Nat) (rest : List Nat) (hpre : pre ≠ []) :
    (pre ++ c :: rest).getD (pre.length - 1) 0 = pre.getLast hpre := by
  obtain ⟨init, last, rfl⟩ : ∃ init last, pre = init ++ [last] :=
    ⟨pre.dropLast, pre.getLast hpre, (List.dropLast_append_getLast hpre).symm⟩
  have h1 : (init ++ [last]).length - 1 = init.length := by simp
  rw [h1, List.getLast_append_singleton, List.append_assoc]
  exact getD_append_cons init last _ 0

/-- One iteration of the loop of `parseIPv4Fields`, at the byte `c` that follows
the prefix `pre` of the text. -/
theorem parseIPv4FieldsLoop_step (s pre rest : GoString) (c val pos digLen : Nat)
    (fields : List Nat) (hs : s = pre ++ c :: rest) :
    parseIPv4FieldsLoop s (rest.length + 1) pre.length val pos digLen fields =
      if 48 ≤ c ∧ c ≤ 57 then
        if digLen = 1 ∧ val = 0 then .error "IPv4 field has octet with leading zero"
        else if val * 10 + c - 48 > 255 then .error "IPv4 field has value >255"
        else parseIPv4FieldsLoop s rest.length (pre ++ [c]).length (val * 10 + c - 48) pos
          (digLen + 1) fields
      else if c = 46 then
        if pre = [] ∨ rest = [] ∨ pre.getLast? = some 46 then
          .error "IPv4 field must have at least one digit"
        else if pos = 3 then .error "IPv4 address too long"
        else parseIPv4FieldsLoop s rest.length (pre ++ [c]).length 0 (pos + 1) 0
          (fields.set pos (val % 256))
      else .error "unexpected character" := by
  have hc : s.getD pre.length 0 = c := by rw [hs]; exact getD_append_cons pre c rest 0
  have hlen : (pre ++ [c]).length = pre.length + 1 := by simp
  have hslen : s.length - 1 = pre.length + rest.length := by rw [hs]; simp
  have hcond : (pre.length = 0 ∨ pre.length = s.length - 1 ∨ s.getD (pre.length - 1) 0 = 46)
      ↔ (pre = [] ∨ rest = [] ∨ pre.getLast? = some 46) := by
    by_cases hpre : pre = []
    · simp [hpre]
    · have h0 : pre.length ≠ 0 := by simpa using hpre
      have hlast : s.getD (pre.length - 1) 0 = pre.getLast hpre := by
        rw [hs]; exact getD_pred_append pre c rest hpre
      rw [hlast, hslen, List.getLast?_eq_getLast pre hpre]
      simp only [h0, hpre, false_or, Option.some.injEq]
      constructor
      · rintro (h | h)
        · left; exact List.length_eq_zero.mp (by omega)
        · right; exact h
      · rintro (h | h)
        · left; simp [h]
        · right; exact h
  rw [parseIPv4FieldsLoop]
  simp only [hc, hlen]
  by_cases hd : 48 ≤ c ∧ c ≤ 57
  · simp only [hd, and_self, if_true]
  · simp only [hd, if_false]
    by_cases h46 : c = 46
    · simp only [h46, if_true]
      by_cases hcc : pre = [] ∨ rest = [] ∨ pre.getLast? = some 46
      · rw [if_pos (hcond.mpr hcc), if_pos hcc]
      · rw [if_neg (fun h => hcc (hcond.mp h)), if_neg hcc]
    · simp only [h46, if_false]

theorem formatOctet_digit (c : Nat) (h1 : 48 ≤ c) (h2 : c ≤ 57) :
    formatOctet (c - 48) = [c] := by
  have : c - 48 < 10 := by omega
  simp only [formatOctet, this, if_true]
  congr 1; omega

theorem formatOctet_snoc (val c : Nat) (h1 : 48 ≤ c) (h2 : c ≤ 57) (hv : 1 ≤ val)
    (h255 : val * 10 + c - 48 ≤ 255) :
    formatOctet (val * 10 + c - 48) = formatOctet val ++ [c] := by
  by_cases h10 : val < 10
  · have a1 : ¬ val * 10 + c - 48 < 10 := by omega
    have a2 : val * 10 + c - 48 < 100 := by omega
    simp only [formatOctet, a1, a2, h10, if_true, if_false, List.singleton_append,
      List.cons.injEq, and_true]
    constructor <;> omega
  · have a1 : ¬ val * 10 + c - 48 < 10 := by omega
    have a2 : ¬ val * 10 + c - 48 < 100 := by omega
    have a3 : val < 100 := by omega
    simp only [formatOctet, a1, a2, a3, h10, if_true, if_false, List.cons_append,
      List.nil_append, List.cons.injEq, and_true]
    refine ⟨?_, ?_, ?_⟩ <;> omega

theorem formatOctet_ne_nil (n : Nat) : formatOctet n ≠ [] := by
  unfold formatOctet; split_ifs <;> simp

theorem formatOctet_ge (n : Nat) : ∀ c ∈ formatOctet n, 48 ≤ c := by
  intro c hc
  unfold formatOctet at hc
  split_ifs at hc <;> simp at hc <;> omega

theorem renderFields_snoc (l : List Nat) (v : Nat) :
    renderFields (l ++ [v]) = renderFields l ++ formatOctet v ++ [46] := by
  simp [renderFields]

theorem renderFields_last (l : List Nat) :
    renderFields l = [] ∨ (renderFields l).getLast? = some 46 := by
  rcases List.eq_nil_or_concat l with h | ⟨init, v, h⟩
  · left; rw [h]; rfl
  · right
    rw [h, List.concat_eq_append, renderFields_snoc, List.getLast?_append]
    simp

theorem take_set_succ (fields : List Nat) (pos v : Nat) (h : pos < fields.length) :
    (fields.set pos v).take (pos + 1) = fields.take pos ++ [v] := by
  apply List.ext_getElem?
  intro k
  simp only [List.getElem?_take, List.getElem?_append, List.getElem?_set, List.length_take]
  have hm : min pos fields.length = pos := by omega
  rw [hm]
  by_cases h1 : k < pos
  · have h2 : k < pos + 1 := by omega
    have h3 : pos ≠ k := by omega
    simp only [h1, h2, h3, if_true, if_false]
  · by_cases h2 : k = pos
    · subst h2
      simp [h]
    · have h3 : ¬ k < pos + 1 := by omega
      have h4 : k - pos ≠ 0 := by omega
      simp [h1, h3, h4]
      omega

theorem parseIPv4FieldsLoop_inv (s : GoString) :
    ∀ (rest pre : GoString) (val pos digLen : Nat) (fields : List Nat)
      (val1 pos1 : Nat) (fields1 : List Nat),
      s = pre ++ rest → V4Inv pre rest val pos digLen fields →
      parseIPv4FieldsLoop s rest.length pre.length val pos digLen fields
        = .ok (val1, pos1, fields1) →
      ∃ digLen1, V4Inv s [] val1 pos1 digLen1 fields1 := by
  intro rest
  induction rest with
  | nil =>
    intro pre val pos digLen fields val1 pos1 fields1 hs hinv hres
    simp only [List.length_nil, parseIPv4FieldsLoop, Except.ok.injEq, Prod.mk.injEq] at hres
    obtain ⟨rfl, rfl, rfl⟩ := hres
    rw [List.append_nil] at hs
    exact ⟨digLen, hs ▸ hinv⟩
  | cons c rest ih =>
    intro pre val pos digLen fields val1 pos1 fields1 hs hinv hres
    rw [List.length_cons, parseIPv4FieldsLoop_step s pre rest c val pos digLen fields hs] at hres
    have hs1 : s = (pre ++ [c]) ++ rest := by rw [hs]; simp
    obtain ⟨hpos, hlen, hfs, hval, hcur⟩ := hinv
    by_cases hd : 48 ≤ c ∧ c ≤ 57
    · rw [if_pos hd] at hres
      by_cases hz : digLen = 1 ∧ val = 0
      · rw [if_pos hz] at hres; cases hres
      · rw [if_neg hz] at hres
        by_cases hbig : val * 10 + c - 48 > 255
        · rw [if_pos hbig] at hres; cases hres
        · rw [if_neg hbig] at hres
          refine ih (pre ++ [c]) _ pos _ fields val1 pos1 fields1 hs1 ?_ hres
          refine ⟨hpos, hlen, hfs, by omega, Or.inr ?_⟩
          rcases hcur with ⟨hd0, hv0, hpre, _⟩ | ⟨hdl, hpre⟩
          · subst hv0
            have e : 0 * 10 + c - 48 = c - 48 := by omega
            rw [e, formatOctet_digit c hd.1 hd.2, hd0, hpre]
            simp
          · have hv1 : 1 ≤ val := by
              by_contra hv
              have hv0 : val = 0 := by omega
              apply hz
              refine ⟨?_, hv0⟩
              rw [hdl, hv0]; rfl
            rw [formatOctet_snoc val c hd.1 hd.2 hv1 (by omega), hdl, hpre]
            simp
    · rw [if_neg hd] at hres
      by_cases h46 : c = 46
      · rw [if_pos h46] at hres
        by_cases hcc : pre = [] ∨ rest = [] ∨ pre.getLast? = some 46
        · rw [if_pos hcc] at hres; cases hres
        · rw [if_neg hcc] at hres
          by_cases hp3 : pos = 3
          · rw [if_pos hp3] at hres; cases hres
          · rw [if_neg hp3] at hres
            have hcc1 : pre ≠ [] := fun h => hcc (Or.inl h)
            have hcc2 : rest ≠ [] := fun h => hcc (Or.inr (Or.inl h))
            have hcc3 : pre.getLast? ≠ some 46 := fun h => hcc (Or.inr (Or.inr h))
            have hv256 : val % 256 = val := Nat.mod_eq_of_lt (by omega)
            rw [hv256] at hres
            refine ih (pre ++ [c]) 0 (pos + 1) 0 (fields.set pos val) val1 pos1 fields1 hs1
              ?_ hres
            rcases hcur with ⟨hd0, hv0, hpre, _⟩ | ⟨hdl, hpre⟩
            · exfalso
              rcases renderFields_last (fields.take pos) with h | h
              · exact hcc1 (hpre.trans h)
              · exact hcc3 (hpre ▸ h)
            · have htake := take_set_succ fields pos val (by omega)
              refine ⟨by omega, by simp [hlen], ?_, by omega, Or.inl ⟨rfl, rfl, ?_, Or.inr hcc2⟩⟩
              · intro f hf
                rw [htake, List.mem_append] at hf
                rcases hf with hf | hf
                · exact hfs f hf
                · simp at hf; omega
              · rw [htake, renderFields_snoc, hpre, h46]
      · rw [if_neg h46] at hres; cases hres

theorem parseIPv4FieldsLoop_digit (s pre rest : GoString) (c val pos digLen fuel i : Nat)
    (fields : List Nat) (hs : s = pre ++ c :: rest) (hf : fuel = rest.length + 1)
    (hi : i = pre.length) (hd : 48 ≤ c ∧ c ≤ 57) (hz : ¬ (digLen = 1 ∧ val = 0))
    (hb : val * 10 + c - 48 ≤ 255) :
    parseIPv4FieldsLoop s fuel i val pos digLen fields =
      parseIPv4FieldsLoop s rest.length (i + 1) (val * 10 + c - 48) pos (digLen + 1) fields := by
  subst hf hi
  rw [parseIPv4FieldsLoop_step s pre rest c val pos digLen fields hs, if_pos hd, if_neg hz,
    if_neg (by omega)]
  simp

theorem parseIPv4FieldsLoop_dot (s pre rest : GoString) (val pos digLen fuel i : Nat)
    (fields : List Nat) (hs : s = pre ++ 46 :: rest) (hf : fuel = rest.length + 1)
    (hi : i = pre.length) (h1 : pre ≠ []) (h2 : rest ≠ []) (h3 : pre.getLast? ≠ some 46)
    (h4 : pos ≠ 3) :
    parseIPv4FieldsLoop s fuel i val pos digLen fields =
      parseIPv4FieldsLoop s rest.length (i + 1) 0 (pos + 1) 0 (fields.set pos (val % 256)) := by
  subst hf hi
  rw [parseIPv4FieldsLoop_step s pre rest 46 val pos digLen fields hs,
    if_neg (by omega), if_pos rfl, if_neg (by simp [h1, h2, h3]), if_neg h4]
  simp

theorem formatOctet_cases (a : Nat) (ha : a ≤ 255) :
    formatOctet a = [48 + a] ∧ a < 10 ∨
    (∃ x y, formatOctet a = [48 + x, 48 + y] ∧ 1 ≤ x ∧ x < 10 ∧ y < 10 ∧ a = x * 10 + y) ∨
    (∃ x y z, formatOctet a = [48 + x, 48 + y, 48 + z] ∧ 1 ≤ x ∧ x < 10 ∧ y < 10 ∧ z < 10 ∧
      a = (x * 10 + y) * 10 + z) := by
  by_cases h1 : a < 10
  · left; simp [formatOctet, h1]
  · by_cases h2 : a < 100
    · right; left
      exact ⟨a / 10, a % 10, by simp [formatOctet, h1, h2], by omega, by omega, by omega,
        by omega⟩
    · right; right
      exact ⟨a / 100, a / 10 % 10, a % 10, by simp [formatOctet, h1, h2], by omega, by omega,
        by omega, by omega, by omega⟩

/-- Reading the decimal text of an octet leaves the octet in `val`. -/
theorem parseIPv4FieldsLoop_field (s pre rest : GoString) (a pos fuel i : Nat)
    (fields : List Nat) (hs : s = pre ++ (formatOctet a ++ rest)) (ha : a ≤ 255)
    (hf : fuel = (formatOctet a).length + rest.length) (hi : i = pre.length) :
    parseIPv4FieldsLoop s fuel i 0 pos 0 fields =
      parseIPv4FieldsLoop s rest.length (i + (formatOctet a).length) a pos
        (formatOctet a).length fields := by
  rcases formatOctet_cases a ha with ⟨h, h10⟩ | ⟨x, y, h, hx1, hx, hy, rfl⟩ |
    ⟨x, y, z, h, hx1, hx, hy, hz, rfl⟩
  · rw [h] at hs hf ⊢
    rw [parseIPv4FieldsLoop_digit s pre rest (48 + a) 0 pos 0 fuel i fields (by simpa using hs)
      (by simp only [hf, List.length_cons, List.length_nil]; omega) hi (by omega) (by omega)
      (by omega)]
    have e : 0 * 10 + (48 + a) - 48 = a := by omega
    rw [e]; rfl
  · rw [h] at hs hf ⊢
    rw [parseIPv4FieldsLoop_digit s pre ((48 + y) :: rest) (48 + x) 0 pos 0 fuel i fields
      (by simpa using hs) (by simp only [hf, List.length_cons, List.length_nil]; omega) hi
      (by omega) (by omega) (by omega)]
    rw [parseIPv4FieldsLoop_digit s (pre ++ [48 + x]) rest (48 + y) (0 * 10 + (48 + x) - 48)
      pos (0 + 1) ((48 + y) :: rest).length (i + 1) fields
      (by simpa using hs) rfl (by simp [hi]) (by omega) (by omega) (by omega)]
    have e : (0 * 10 + (48 + x) - 48) * 10 + (48 + y) - 48 = x * 10 + y := by omega
    rw [e]; rfl
  · rw [h] at hs hf ⊢
    rw [parseIPv4FieldsLoop_digit s pre ((48 + y) :: (48 + z) :: rest) (48 + x) 0 pos 0 fuel i
      fields (by simpa using hs) (by simp only [hf, List.length_cons, List.length_nil]; omega)
      hi (by omega) (by omega) (by omega)]
    rw [parseIPv4FieldsLoop_digit s (pre ++ [48 + x]) ((48 + z) :: rest) (48 + y)
      (0 * 10 + (48 + x) - 48) pos (0 + 1) ((48 + y) :: (48 + z) :: rest).length (i + 1)
      fields (by simpa using hs) rfl (by simp [hi]) (by omega) (by omega) (by omega)]
    rw [parseIPv4FieldsLoop_digit s (pre ++ [48 + x, 48 + y]) rest (48 + z)
      ((0 * 10 + (48 + x) - 48) * 10 + (48 + y) - 48) pos (0 + 1 + 1)
      ((48 + z) :: rest).length (i + 1 + 1)
      fields (by simpa using hs) rfl (by simp [hi]) (by omega) (by omega) (by omega)]
    have e : ((0 * 10 + (48 + x) - 48) * 10 + (48 + y) - 48) * 10 + (48 + z) - 48
        = (x * 10 + y) * 10 + z := by omega
    rw [e]; rfl

theorem formatOctet_getLast (a : Nat) (pre : GoString) :
    (pre ++ formatOctet a).getLast? ≠ some 46 := by
  intro h
  have hmem : (46 : Nat) ∈ formatOctet a := by
    rw [List.getLast?_append_of_ne_nil _ (formatOctet_ne_nil a)] at h
    exact List.mem_of_getLast?_eq_some h
  have := formatOctet_ge a 46 hmem
  omega

/-- Reading an octet and the `'.'` after it stores the octet in `fields[pos]`. -/
theorem parseIPv4FieldsLoop_field_dot (s pre rest : GoString) (a pos fuel : Nat)
    (fields : List Nat) (hs : s = pre ++ (formatOctet a ++ 46 :: rest)) (ha : a ≤ 255)
    (hf : fuel = (formatOctet a).length + (rest.length + 1)) (hrest : rest ≠ [])
    (hpos : pos ≠ 3) :
    parseIPv4FieldsLoop s fuel pre.length 0 pos 0 fields =
      parseIPv4FieldsLoop s rest.length (pre ++ (formatOctet a ++ [46])).length 0 (pos + 1) 0
        (fields.set pos a) := by
  rw [parseIPv4FieldsLoop_field s pre (46 :: rest) a pos fuel pre.length fields hs ha
    (by simp [hf]) rfl]
  rw [parseIPv4FieldsLoop_dot s (pre ++ formatOctet a) rest a pos _ _ _ fields
    (by simp [hs]) (by simp) (by simp) (by simp [formatOctet_ne_nil]) hrest
    (formatOctet_getLast a pre) hpos]
  rw [Nat.mod_eq_of_lt (by omega)]
  congr 1
  simp; omega

theorem parseIPv4Fields_dottedQuad (a b c d : Nat) (ha : a ≤ 255) (hb : b ≤ 255)
    (hc : c ≤ 255) (hd : d ≤ 255) (f0 f1 f2 f3 : Nat) :
    parseIPv4Fields (dottedQuad a b c d) [f0, f1, f2, f3] = .ok [a, b, c, d] := by
  have hne : ∀ (n : Nat) (l : GoString), formatOctet n ++ l ≠ [] := by
    intro n l h
    exact formatOctet_ne_nil n (List.append_eq_nil.mp h).1
  have h1 := parseIPv4FieldsLoop_field_dot (dottedQuad a b c d) []
    (formatOctet b ++ 46 :: (formatOctet c ++ 46 :: formatOctet d)) a 0
    (dottedQuad a b c d).length [f0, f1, f2, f3] rfl ha (by simp [dottedQuad]) (hne _ _)
    (by omega)
  have h2 := parseIPv4FieldsLoop_field_dot (dottedQuad a b c d) ([] ++ (formatOctet a ++ [46]))
    (formatOctet c ++ 46 :: formatOctet d) b 1
    (formatOctet b ++ 46 :: (formatOctet c ++ 46 :: formatOctet d)).length
    ([f0, f1, f2, f3].set 0 a) (by simp [dottedQuad]) hb (by simp) (hne _ _) (by omega)
  have h3 := parseIPv4FieldsLoop_field_dot (dottedQuad a b c d)
    ([] ++ (formatOctet a ++ [46]) ++ (formatOctet b ++ [46]))
    (formatOctet d) c 2 (formatOctet c ++ 46 :: formatOctet d).length
    (([f0, f1, f2, f3].set 0 a).set 1 b) (by simp [dottedQuad]) hc (by simp)
    (formatOctet_ne_nil d) (by omega)
  have h4 := parseIPv4FieldsLoop_field (dottedQuad a b c d)
    ([] ++ (formatOctet a ++ [46]) ++ (formatOctet b ++ [46]) ++ (formatOctet c ++ [46]))
    [] d 3 (formatOctet d).length _ ((([f0, f1, f2, f3].set 0 a).set 1 b).set 2 c)
    (by simp [dottedQuad]) hd (by simp) rfl
  have h : parseIPv4FieldsLoop (dottedQuad a b c d) (dottedQuad a b c d).length 0 0 0 0
      [f0, f1, f2, f3] = .ok (d, 3, [a, b, c, f3]) :=
    h1.trans (h2.trans (h3.trans (h4.trans rfl)))
  rw [parseIPv4Fields, h]
  simp
  omega

/-- Soundness of `parseIPv4Fields`: an accepted text is a canonical dotted quad. -/
theorem parseIPv4Fields_sound (s : GoString) (init fs : List Nat) (hinit : init.length = 4)
    (h : parseIPv4Fields s init = .ok fs) :
    ∃ a b c d, a < 256 ∧ b < 256 ∧ c < 256 ∧ d < 256 ∧ fs = [a, b, c, d] ∧
      s = dottedQuad a b c d := by
  unfold parseIPv4Fields at h
  cases hl : parseIPv4FieldsLoop s s.length 0 0 0 0 init with
  | error e => rw [hl] at h; cases h
  | ok r =>
    obtain ⟨val, pos, fields⟩ := r
    rw [hl] at h
    simp only at h
    by_cases hp : pos < 3
    · rw [if_pos hp] at h; cases h
    · rw [if_neg hp] at h
      have hinv0 : V4Inv [] s 0 0 0 init :=
        ⟨by omega, hinit, by simp, by omega, Or.inl ⟨rfl, rfl, rfl, Or.inl rfl⟩⟩
      obtain ⟨digLen, hpos, hlen, hfs, hval, hcur⟩ :=
        parseIPv4FieldsLoop_inv s s [] 0 0 0 init val pos fields rfl hinv0 hl
      have hp3 : pos = 3 := by omega
      subst hp3
      rcases hcur with ⟨_, _, _, h0 | h0⟩ | ⟨_, hpre⟩
      · omega
      · exact absurd rfl h0
      · match fields, hlen with
        | [a, b, c, x], _ =>
          simp only [List.take_succ_cons, List.take_zero, List.mem_cons, List.mem_singleton,
            List.not_mem_nil, or_false] at hfs
          refine ⟨a, b, c, val, hfs a (Or.inl rfl), hfs b (Or.inr (Or.inl rfl)),
            hfs c (Or.inr (Or.inr rfl)), by omega, ?_, ?_⟩
          · have : val % 256 = val := Nat.mod_eq_of_lt (by omega)
            simp only [Except.ok.injEq] at h
            rw [← h, this]; rfl
          · rw [hpre]
            simp [renderFields, dottedQuad]

theorem formatOctet_le (n : Nat) (hn : n ≤ 255) : ∀ c ∈ formatOctet n, c ≤ 57 := by
  intro c hc
  unfold formatOctet at hc
  split_ifs at hc <;> simp at hc <;> omega

theorem parseAddrLoop_dot (s pre rest : GoString)
    (hpre : ∀ c ∈ pre, c ≠ 46 ∧ c ≠ 58 ∧ c ≠ 37) :
    parseAddrLoop s (pre ++ 46 :: rest) = parseIPv4 s := by
  induction pre with
  | nil => simp [parseAddrLoop]
  | cons c pre ih =>
    have hc := hpre c (List.mem_cons_self _ _)
    simp only [List.cons_append, parseAddrLoop, hc.1, hc.2.1, hc.2.2, if_false]
    exact ih (fun x hx => hpre x (List.mem_cons_of_mem _ hx))

theorem parseAddrLoop_ok (s : GoString) :
    ∀ (rest : GoString) (addr : Addr), parseAddrLoop s rest = .ok addr →
      parseIPv4 s = .ok addr ∨ (parseIPv6 s = .ok addr ∧ 58 ∈ rest) := by
  intro rest
  induction rest with
  | nil => intro addr h; simp [parseAddrLoop] at h
  | cons c rest ih =>
    intro addr h
    simp only [parseAddrLoop] at h
    by_cases h46 : c = 46
    · rw [if_pos h46] at h; exact Or.inl h
    · rw [if_neg h46] at h
      by_cases h58 : c = 58
      · rw [if_pos h58] at h; exact Or.inr ⟨h, by simp [h58]⟩
      · rw [if_neg h58] at h
        by_cases h37 : c = 37
        · rw [if_pos h37] at h; cases h
        · rw [if_neg h37] at h
          rcases ih addr h with h1 | ⟨h1, h2⟩
          · exact Or.inl h1
          · exact Or.inr ⟨h1, List.mem_cons_of_mem _ h2⟩

theorem ParseAddr_dottedQuad (a b c d : Nat) (ha : a ≤ 255) (hb : b ≤ 255) (hc : c ≤ 255)
    (hd : d ≤ 255) :
    ParseAddr (dottedQuad a b c d) = .ok (AddrFrom4 [a, b, c, d]) := by
  have h1 : ParseAddr (dottedQuad a b c d) = parseIPv4 (dottedQuad a b c d) := by
    unfold ParseAddr
    exact parseAddrLoop_dot (dottedQuad a b c d) (formatOctet a) _ (by
      intro x hx
      have := formatOctet_ge a x hx
      have := formatOctet_le a ha x hx
      omega)
  rw [h1, parseIPv4, parseIPv4Fields_dottedQuad a b c d ha hb hc hd]

theorem ipToUint32_AddrFrom4 (s : GoString) (a b c d : Nat) (ha : a < 256) (hb : b < 256)
    (hc : c < 256) (hd : d < 256) (h : ParseAddr s = .ok (AddrFrom4 [a, b, c, d])) :
    ipToUint32 s = .ok (a * 2 ^ 24 + b * 2 ^ 16 + c * 2 ^ 8 + d) := by
  simp only [ipToUint32, ParseIP, h, AddrFrom4, To4, bigEndianUint32]
  simp
  omega

theorem ipToUint32_dottedQuad_eq (a b c d : Nat) (ha : a ≤ 255) (hb : b ≤ 255) (hc : c ≤ 255)
    (hd : d ≤ 255) :
    ipToUint32 (dottedQuad a b c d) = .ok (a * 2 ^ 24 + b * 2 ^ 16 + c * 2 ^ 8 + d) :=
  ipToUint32_AddrFrom4 _ a b c d (by omega) (by omega) (by omega) (by omega)
    (ParseAddr_dottedQuad a b c d ha hb hc hd)

theorem decodeUint32_encode (a b c d : Nat) (ha : a < 256) (hb : b < 256) (hc : c < 256)
    (hd : d < 256) :
    decodeUint32 (a * 2 ^ 24 + b * 2 ^ 16 + c * 2 ^ 8 + d) = dottedQuad a b c d := by
  have h1 : (a * 2 ^ 24 + b * 2 ^ 16 + c * 2 ^ 8 + d) / 2 ^ 24 % 256 = a := by omega
  have h2 : (a * 2 ^ 24 + b * 2 ^ 16 + c * 2 ^ 8 + d) / 2 ^ 16 % 256 = b := by omega
  have h3 : (a * 2 ^ 24 + b * 2 ^ 16 + c * 2 ^ 8 + d) / 2 ^ 8 % 256 = c := by omega
  have h4 : (a * 2 ^ 24 + b * 2 ^ 16 + c * 2 ^ 8 + d) % 256 = d := by omega
  rw [decodeUint32, h1, h2, h3, h4]

theorem bytes16_set {ip : List Nat} (h : Bytes16 ip) (i v : Nat) (hv : v < 256) :
    Bytes16 (ip.set i v) := by
  refine ⟨by rw [List.length_set]; exact h.1, fun x hx => ?_⟩
  rcases List.mem_or_eq_of_mem_set hx with h1 | h1
  · exact h.2 x h1
  · rw [h1]; exact hv

theorem bytes16_setRange {ip : List Nat} (h : Bytes16 ip) (vals : List Nat) :
    ∀ (i : Nat), (∀ v ∈ vals, v < 256) → Bytes16 (setRange ip i vals) := by
  induction vals generalizing ip with
  | nil => intro i _; exact h
  | cons v vs ih =>
    intro i hv
    simp only [setRange]
    exact ih (bytes16_set h i v (hv v (List.mem_cons_self _ _))) (i + 1)
      (fun x hx => hv x (List.mem_cons_of_mem _ hx))

theorem bytes16_getD {ip : List Nat} (h : Bytes16 ip) (j : Nat) : ip.getD j 0 < 256 := by
  rw [List.getD_eq_getElem?_getD]
  cases hj : ip[j]? with
  | none => simp
  | some x => exact h.2 x (List.mem_iff_getElem?.mpr ⟨j, hj⟩)

theorem bytes16_shiftLoop (n ellipsis : Nat) :
    ∀ (j : Nat) (ip : List Nat), Bytes16 ip → Bytes16 (shiftLoop n ellipsis j ip) := by
  intro j
  induction j with
  | zero => intro ip h; exact h
  | succ j ih =>
    intro ip h
    simp only [shiftLoop]
    split
    · exact ih _ (bytes16_set h _ _ (bytes16_getD h j))
    · exact h

theorem bytes16_clearRange {ip : List Nat} (h : Bytes16 ip) (lo n : Nat) :
    Bytes16 (clearRange ip lo n) := by
  unfold clearRange
  exact bytes16_setRange h _ lo (fun v hv => by rw [List.eq_of_mem_replicate hv]; omega)

theorem bytes16_replicate : Bytes16 (List.replicate 16 0) :=
  ⟨by simp, fun x hx => by rw [List.eq_of_mem_replicate hx]; omega⟩

theorem parseIPv6Loop_bytes (inp zone : GoString) :
    ∀ (fuel : Nat) (s : GoString) (ip : List Nat) (i : Nat) (ellipsis : Int)
      (s1 : GoString) (ip1 : List Nat) (i1 : Nat) (ellipsis1 : Int),
      Bytes16 ip → parseIPv6Loop inp zone fuel s ip i ellipsis = .ok (s1, ip1, i1, ellipsis1) →
      Bytes16 ip1 := by
  intro fuel
  induction fuel with
  | zero =>
    intro s ip i ellipsis s1 ip1 i1 ellipsis1 hb h
    simp only [parseIPv6Loop, Except.ok.injEq, Prod.mk.injEq] at h
    rw [← h.2.1]; exact hb
  | succ fuel ih =>
    intro s ip i ellipsis s1 ip1 i1 ellipsis1 hb h
    rw [parseIPv6Loop] at h
    split at h
    · simp only [Except.ok.injEq, Prod.mk.injEq] at h
      rw [← h.2.1]; exact hb
    · rename_i hi16
      have hi16 : i < 16 := by simpa using hi16
      split at h
      · cases h
      · rename_i off acc hg
        have hnext : Bytes16 ((ip.set i (acc / 256 % 256)).set (i + 1) (acc % 256)) :=
          bytes16_set (bytes16_set hb _ _ (by omega)) _ _ (by omega)
        simp only at h
        split at h
        · cases h
        · split at h
          · split at h
            · cases h
            · split at h
              · cases h
              · rename_i hroom
                split at h
                · cases h
                · rename_i fields hf
                  simp only [Except.ok.injEq, Prod.mk.injEq] at h
                  rw [← h.2.1]
                  have hlen4 : ((ip.drop i).take 4).length = 4 := by
                    rw [List.length_take, List.length_drop, hb.1]; omega
                  obtain ⟨a, b, c, d, ha, hb1, hc, hd, hfs, -⟩ :=
                    parseIPv4Fields_sound _ _ fields hlen4 hf
                  apply bytes16_setRange hb
                  intro v hv
                  rw [hfs] at hv
                  simp at hv
                  rcases hv with rfl | rfl | rfl | rfl <;> assumption
          · split at h
            · simp only [Except.ok.injEq, Prod.mk.injEq] at h
              rw [← h.2.1]; exact hnext
            · split at h
              · cases h
              · split at h
                · cases h
                · split at h
                  · split at h
                    · cases h
                    · split at h
                      · simp only [Except.ok.injEq, Prod.mk.injEq] at h
                        rw [← h.2.1]; exact hnext
                      · exact ih _ _ _ _ _ _ _ _ hnext h
                  · exact ih _ _ _ _ _ _ _ _ hnext h

theorem parseIPv6_bytes (inp : GoString) (addr : Addr) (h : parseIPv6 inp = .ok addr) :
    Bytes16 addr.as16 ∧ addr.z ≠ .z4 := by
  unfold parseIPv6 at h
  simp only at h
  split at h
  · cases h
  · rename_i s0 zone hsplit
    have hz : (if zone = [] then Zone.z6noz else Zone.zone zone) ≠ Zone.z4 := by
      split <;> simp
    by_cases hlead : s0.length ≥ 2 ∧ s0.getD 0 0 = 58 ∧ s0.getD 1 0 = 58
    · simp only [hlead, and_self, if_true, true_and] at h
      split at h
      · simp only [Except.ok.injEq] at h
        rw [← h]
        exact ⟨bytes16_replicate, hz⟩
      · split at h
        · cases h
        · rename_i s ip i ellipsis hloop
          have hip := parseIPv6Loop_bytes _ _ _ _ _ _ _ _ _ _ _ bytes16_replicate hloop
          split at h
          · cases h
          · split at h
            · split at h
              · cases h
              · simp only [Except.ok.injEq] at h
                rw [← h]
                exact ⟨bytes16_clearRange (bytes16_shiftLoop _ _ _ _ hip) _ _, hz⟩
            · split at h
              · cases h
              · simp only [Except.ok.injEq] at h
                rw [← h]
                exact ⟨hip, hz⟩
    · simp only [hlead, if_false, false_and] at h
      split at h
      · cases h
      · rename_i s ip i ellipsis hloop
        have hip := parseIPv6Loop_bytes _ _ _ _ _ _ _ _ _ _ _ bytes16_replicate hloop
        split at h
        · cases h
        · split at h
          · split at h
            · cases h
            · simp only [Except.ok.injEq] at h
              rw [← h]
              exact ⟨bytes16_clearRange (bytes16_shiftLoop _ _ _ _ hip) _ _, hz⟩
          · split at h
            · cases h
            · simp only [Except.ok.injEq] at h
              rw [← h]
              exact ⟨hip, hz⟩

theorem To4_bytes16 (ip ipv4 : List Nat) (hb : Bytes16 ip) (h : To4 ip = some ipv4) :
    ∃ a b c d, a < 256 ∧ b < 256 ∧ c < 256 ∧ d < 256 ∧
      ip = [0, 0, 0, 0, 0, 0, 0, 0, 0, 0, 255, 255, a, b, c, d] ∧ ipv4 = [a, b, c, d] := by
  obtain ⟨hlen, hlt⟩ := hb
  match ip, hlen with
  | [x0, x1, x2, x3, x4, x5, x6, x7, x8, x9, x10, x11, a, b, c, d], _ =>
    simp [To4] at h
    obtain ⟨⟨h1, h2, h3⟩, h4⟩ := h
    refine ⟨a, b, c, d, hlt a (by simp), hlt b (by simp), hlt c (by simp), hlt d (by simp), ?_,
      h4.symm⟩
    simp_all

theorem ipToUint32_ok (s : GoString) (v : Nat) (h : ipToUint32 s = .ok v) :
    ∃ addr ipv4, ParseAddr s = .ok addr ∧ (addr.z = .z4 ∨ addr.z = .z6noz) ∧
      To4 addr.as16 = some ipv4 ∧ v = bigEndianUint32 ipv4 := by
  unfold ipToUint32 ParseIP at h
  cases hp : ParseAddr s with
  | error e => rw [hp] at h; cases h
  | ok addr =>
    rw [hp] at h
    simp only at h
    cases hz : addr.z with
    | zone z => rw [hz] at h; cases h
    | z4 =>
      rw [hz] at h
      simp only at h
      cases ht : To4 addr.as16 with
      | none => rw [ht] at h; cases h
      | some ipv4 =>
        rw [ht] at h
        exact ⟨addr, ipv4, rfl, Or.inl hz, ht, (Except.ok.inj h).symm⟩
    | z6noz =>
      rw [hz] at h
      simp only at h
      cases ht : To4 addr.as16 with
      | none => rw [ht] at h; cases h
      | some ipv4 =>
        rw [ht] at h
        exact ⟨addr, ipv4, rfl, Or.inr hz, ht, (Except.ok.inj h).symm⟩

theorem parseIPv4_ok (s : GoString) (addr : Addr) (h : parseIPv4 s = .ok addr) :
    ∃ a b c d, a < 256 ∧ b < 256 ∧ c < 256 ∧ d < 256 ∧ addr = AddrFrom4 [a, b, c, d] ∧
      s = dottedQuad a b c d := by
  unfold parseIPv4 at h
  cases hf : parseIPv4Fields s [0, 0, 0, 0] with
  | error e => rw [hf] at h; cases h
  | ok fs =>
    rw [hf] at h
    obtain ⟨a, b, c, d, ha, hb, hc, hd, hfs, hs⟩ := parseIPv4Fields_sound s [0, 0, 0, 0] fs rfl hf
    exact ⟨a, b, c, d, ha, hb, hc, hd, by rw [← Except.ok.inj h, hfs], hs⟩

/-- Every text that `ipToUint32` accepts is a canonical dotted quad, or an IPv6
text whose address is IPv4-mapped. -/
theorem ipToUint32_ok_cases (s : GoString) (v : Nat) (h : ipToUint32 s = .ok v) :
    (∃ a b c d, a < 256 ∧ b < 256 ∧ c < 256 ∧ d < 256 ∧ s = dottedQuad a b c d ∧
      v = a * 2 ^ 24 + b * 2 ^ 16 + c * 2 ^ 8 + d) ∨
    (58 ∈ s ∧ ∃ a b c d, a < 256 ∧ b < 256 ∧ c < 256 ∧ d < 256 ∧
      parseIPv6 s = .ok { as16 := v4MappedHead ++ [a, b, c, d], z := .z6noz } ∧
      v = a * 2 ^ 24 + b * 2 ^ 16 + c * 2 ^ 8 + d) := by
  obtain ⟨addr, ipv4, hp, hz, ht, hv⟩ := ipToUint32_ok s v h
  rcases parseAddrLoop_ok s s addr hp with h4 | ⟨h6, hmem⟩
  · left
    obtain ⟨a, b, c, d, ha, hb, hc, hd, haddr, hs⟩ := parseIPv4_ok s addr h4
    refine ⟨a, b, c, d, ha, hb, hc, hd, hs, ?_⟩
    have := ipToUint32_AddrFrom4 s a b c d ha hb hc hd (haddr ▸ hp)
    rw [h] at this
    exact Except.ok.inj this
  · right
    refine ⟨hmem, ?_⟩
    obtain ⟨hb16, hz4⟩ := parseIPv6_bytes s addr h6
    obtain ⟨a, b, c, d, ha, hb, hc, hd, hip, h4⟩ := To4_bytes16 addr.as16 ipv4 hb16 ht
    refine ⟨a, b, c, d, ha, hb, hc, hd, ?_, ?_⟩
    · rw [h6]
      congr 1
      cases addr with
      | mk as16 z =>
        simp only at hip hz hz4
        rcases hz with hz | hz
        · exact absurd hz hz4
        · rw [hip, hz]; rfl
    · rw [hv, h4]
      simp only [bigEndianUint32, List.getD_cons_zero, List.getD_cons_succ]
      omega

theorem ParseIP_bytes (s : GoString) (ip : List Nat) (h : ParseIP s = some ip) :
    Bytes16 ip := by
  unfold ParseIP at h
  cases hp : ParseAddr s with
  | error e => rw [hp] at h; cases h
  | ok addr =>
    rw [hp] at h
    simp only at h
    have hip : ip = addr.as16 := by
      cases hz : addr.z <;> rw [hz] at h <;> simp only at h
      · exact (Option.some.inj h).symm
      · exact (Option.some.inj h).symm
      · cases h
    rw [hip]
    rcases parseAddrLoop_ok s s addr hp with h4 | ⟨h6, -⟩
    · obtain ⟨a, b, c, d, ha, hb, hc, hd, haddr, -⟩ := parseIPv4_ok s addr h4
      rw [haddr]
      refine ⟨rfl, fun x hx => ?_⟩
      simp [AddrFrom4] at hx
      omega
    · exact (parseIPv6_bytes s addr h6).1

/-- The text `formatOctet` gives is the decimal numeral of the octet. -/
theorem formatOctet_eq_toDigits :
    ∀ n, n < 256 → formatOctet n = (Nat.toDigits 10 n).map Char.toNat := by
  set_option maxRecDepth 100000 in decide

/-- More fuel than the loop `for i < 16` can use does not change its result. -/
theorem parseIPv6Loop_fuel (inp zone : GoString) :
    ∀ (fuel : Nat) (s : GoString) (ip : List Nat) (i : Nat) (ellipsis : Int),
      16 ≤ i + 2 * fuel →
      parseIPv6Loop inp zone (fuel + 1) s ip i ellipsis
        = parseIPv6Loop inp zone fuel s ip i ellipsis := by
  intro fuel
  induction fuel with
  | zero =>
    intro s ip i ellipsis h
    have hi : ¬ i < 16 := by omega
    simp only [parseIPv6Loop, hi, not_false_eq_true, if_true]
  | succ fuel ih =>
    intro s ip i ellipsis h
    have ih2 : ∀ (s1 : GoString) (ip1 : List Nat) (e1 : Int),
        parseIPv6Loop inp zone (fuel + 1) s1 ip1 (i + 2) e1
          = parseIPv6Loop inp zone fuel s1 ip1 (i + 2) e1 :=
      fun s1 ip1 e1 => ih s1 ip1 (i + 2) e1 (by omega)
    rw [parseIPv6Loop]
    conv_rhs => rw [parseIPv6Loop]
    simp only [ih2]

/-- Eight iterations are all the loop of `parseIPv6` can make from `i = 0`. -/
theorem parseIPv6Loop_fuel_enough (inp zone s : GoString) (ip : List Nat) (ellipsis : Int)
    (n : Nat) :
    parseIPv6Loop inp zone (8 + n) s ip 0 ellipsis
      = parseIPv6Loop inp zone 8 s ip 0 ellipsis := by
  induction n with
  | zero => rfl
  | succ n ih =>
    rw [← ih]
    exact parseIPv6Loop_fuel inp zone (8 + n) s ip 0 ellipsis (by omega)

/-! ## The claims -/

/-- C1: for all octets `a b c d` in `0..255`, `ipToUint32` applied to the
dotted-quad text `a.b.c.d` (decimal, no leading zeros) succeeds and returns the
big-endian value `a*2^24 + b*2^16 + c*2^8 + d`, which is the 32-bit integer
whose network-byte-order bytes are `a, b, c, d`. -/
theorem ipToUint32_encodes_dottedQuad (a b c d : Nat) (ha : a ≤ 255) (hb : b ≤ 255)
    (hc : c ≤ 255) (hd : d ≤ 255) :
    ipToUint32 (dottedQuad a b c d) = .ok (a * 2 ^ 24 + b * 2 ^ 16 + c * 2 ^ 8 + d) ∧
    a * 2 ^ 24 + b * 2 ^ 16 + c * 2 ^ 8 + d = bigEndianUint32 [a, b, c, d] ∧
    a * 2 ^ 24 + b * 2 ^ 16 + c * 2 ^ 8 + d < 2 ^ 32 := by
  refine ⟨ipToUint32_dottedQuad_eq a b c d ha hb hc hd, ?_, by omega⟩
  simp only [bigEndianUint32, List.getD_cons_zero, List.getD_cons_succ]
  omega

/-- C1 at `192.168.1.10`. -/
theorem ipToUint32_encodes_dottedQuad_witness :
    ipToUint32 (goString "192.168.1.10") = .ok 3232235786 :=
  (ipToUint32_encodes_dottedQuad 192 168 1 10 (by decide) (by decide) (by decide)
    (by decide)).1

/-- C2, as stated, fails: the text `::ffff:a00:1` has no `'.'` (it is not a
dotted quad), it parses as an IPv6 address, and `ipToUint32` does not reject it
with "not an IPv4 address" but returns the encoding of `10.0.0.1`. -/
theorem ipToUint32_accepts_mapped_ipv6 :
    ipToUint32 (goString "::ffff:a00:1") = .ok 167772161 ∧
    ParseAddr (goString "::ffff:a00:1")
      = .ok { as16 := [0, 0, 0, 0, 0, 0, 0, 0, 0, 0, 255, 255, 10, 0, 0, 1], z := .z6noz } ∧
    46 ∉ goString "::ffff:a00:1" ∧
    ipToUint32 (goString "::ffff:a00:1") ≠ .error (.notIPv4 (goString "::ffff:a00:1")) := by
  refine ⟨by rfl, by rfl, by decide, ?_⟩
  intro h
  have h1 : ipToUint32 (goString "::ffff:a00:1") = .ok 167772161 := by rfl
  rw [h1] at h
  cases h

/-- C2, amended: a text that does not parse as an IP address fails with
"invalid IP address"; a text that parses as an address whose 16-byte form is
not IPv4-mapped (it does not start with ten zero bytes and two `0xff` bytes)
fails with "not an IPv4 address"; and `ipToUint32` returns a value `v` only if
the text is a canonical dotted quad `a.b.c.d`, or an IPv6 text (it contains
`':'`) that parses to the IPv4-mapped address of `a.b.c.d`; in both cases
`v = a*2^24 + b*2^16 + c*2^8 + d < 2^32`.  The texts `not-an-ip`, `256.1.1.1`
and the host name `example.com` are invalid, `::1` is not IPv4. -/
theorem ipToUint32_rejects_invalid (s : GoString) :
    (ParseIP s = none → ipToUint32 s = .error (.invalidIP s)) ∧
    (∀ ip, ParseIP s = some ip → ip.take 12 ≠ v4MappedHead →
      ipToUint32 s = .error (.notIPv4 s)) ∧
    (∀ v, ipToUint32 s = .ok v → v < 2 ^ 32 ∧
      ((∃ a b c d, a < 256 ∧ b < 256 ∧ c < 256 ∧ d < 256 ∧ s = dottedQuad a b c d ∧
          v = a * 2 ^ 24 + b * 2 ^ 16 + c * 2 ^ 8 + d) ∨
       (58 ∈ s ∧ ∃ a b c d, a < 256 ∧ b < 256 ∧ c < 256 ∧ d < 256 ∧
          parseIPv6 s = .ok { as16 := v4MappedHead ++ [a, b, c, d], z := .z6noz } ∧
          v = a * 2 ^ 24 + b * 2 ^ 16 + c * 2 ^ 8 + d))) ∧
    ipToUint32 (goString "not-an-ip") = .error (.invalidIP (goString "not-an-ip")) ∧
    ipToUint32 (goString "256.1.1.1") = .error (.invalidIP (goString "256.1.1.1")) ∧
    ipToUint32 (goString "example.com") = .error (.invalidIP (goString "example.com")) ∧
    ipToUint32 (goString "::1") = .error (.notIPv4 (goString "::1")) := by
  refine ⟨?_, ?_, ?_, by rfl, by rfl, by rfl, by rfl⟩
  · intro h
    simp only [ipToUint32, h]
  · intro ip h hne
    have hb := ParseIP_bytes s ip h
    cases ht : To4 ip with
    | none => simp only [ipToUint32, h, ht]
    | some ipv4 =>
      exfalso
      obtain ⟨a, b, c, d, -, -, -, -, hip, -⟩ := To4_bytes16 ip ipv4 hb ht
      apply hne
      rw [hip]; rfl
  · intro v h
    have hc := ipToUint32_ok_cases s v h
    refine ⟨?_, hc⟩
    rcases hc with ⟨a, b, c, d, ha, hb, hc, hd, -, hv⟩ | ⟨-, a, b, c, d, ha, hb, hc, hd, -, hv⟩ <;>
      omega

/-- C2 amended, at the link-local IPv6 text `fe80::1`: it parses, its 16-byte
form is not IPv4-mapped, and `ipToUint32` fails with "not an IPv4 address". -/
theorem ipToUint32_rejects_invalid_witness :
    ipToUint32 (goString "fe80::1") = .error (.notIPv4 (goString "fe80::1")) :=
  (ipToUint32_rejects_invalid (goString "fe80::1")).2.1
    [254, 128, 0, 0, 0, 0, 0, 0, 0, 0, 0, 0, 0, 0, 0, 1] (by rfl) (by decide)

/-- C3: after the population loop has run over the configured addresses on a
fresh (empty) table of sufficient capacity (at least one slot per configured
entry; a capacity is a 32-bit quantity), a candidate is found in the table if
and only if it is `ipToUint32` of some configured address that encodes
successfully. -/
theorem lookup_iff_configured (blockedIPs : List GoString) (capacity candidate : Nat)
    (hcap : blockedIPs.length ≤ capacity) (h32 : capacity ≤ 2 ^ 32) :
    (populate BlockTable.Put blockedIPs (BlockTable.fresh capacity)).1.Lookup candidate = true
      ↔ ∃ s ∈ blockedIPs, ipToUint32 s = .ok candidate := by
  rw [blockTable_lookup_iff, populate,
    populateLoop_stored blockedIPs 0 (BlockTable.fresh capacity)
      (by simp [BlockTable.fresh]; exact hcap) (by simp [BlockTable.fresh]; exact h32)
      (by
        intro j _ hj
        simp only [BlockTable.fresh, List.length_replicate] at hj
        simp [BlockTable.fresh, List.getElem?_replicate, hj])]
  simp [BlockTable.fresh]

/-- C3 at the list `10.0.0.1, garbage, 10.0.0.2`, a table of three slots and
the candidate `10.0.0.2`. -/
theorem lookup_iff_configured_witness :
    (populate BlockTable.Put sampleBlockedIPs (BlockTable.fresh 3)).1.Lookup 167772162 = true
      ↔ ∃ s ∈ sampleBlockedIPs, ipToUint32 s = .ok 167772162 :=
  lookup_iff_configured sampleBlockedIPs 3 167772162 (by decide) (by decide)

/-- C4: whatever the table's store operation does, the population loop goes
through the whole list: it makes one `Put` per entry that `ipToUint32` accepts
(their values, in order, are the encodings of the accepted entries) and logs
one "invalid IP address in config" per entry it rejects (the rejected texts, in
order).  On `10.0.0.1, garbage, 10.0.0.2` that is 2 writes, of the encodings of
`10.0.0.1` and `10.0.0.2`, and 1 rejection, and with a table of three slots
both values are stored. -/
theorem populate_skips_rejected_entries {T : Type} (put : T → Nat → Nat → Except String T)
    (blockedIPs : List GoString) (table : T) :
    (putsOf (populate put blockedIPs table).2).length = (blockedIPs.filter encodes).length ∧
    (putsOf (populate put blockedIPs table).2).map Prod.snd
      = blockedIPs.filterMap encoding ∧
    rejectedOf (populate put blockedIPs table).2
      = blockedIPs.filter (fun s => ! encodes s) ∧
    (rejectedOf (populate put blockedIPs table).2).length
      = (blockedIPs.filter (fun s => ! encodes s)).length ∧
    putsOf (populate put sampleBlockedIPs table).2 = [(0, 167772161), (2, 167772162)] ∧
    rejectedOf (populate put sampleBlockedIPs table).2 = [goString "garbage"] ∧
    populate BlockTable.Put sampleBlockedIPs (BlockTable.fresh 3) =
      ({ slots := [some 167772161, none, some 167772162] },
        [.mapPut 0 167772161, .logInvalidIP (goString "garbage"), .mapPut 2 167772162]) := by
  have h1 := putsOf_populateLoop put blockedIPs 0 table
  have h2 := rejectedOf_populateLoop put blockedIPs 0 table
  have h3 : (putsOf (populate put blockedIPs table).2).map Prod.snd
      = blockedIPs.filterMap encoding := by
    rw [populate, h1]; exact filterMap_writeOf_snd blockedIPs 0
  refine ⟨?_, h3, h2, by rw [populate, h2], ?_, ?_, by rfl⟩
  · rw [← filterMap_encoding_length, ← h3, List.length_map]
  · rw [populate, putsOf_populateLoop]; rfl
  · rw [populate, rejectedOf_populateLoop]; rfl

/-- C5, as stated, fails: on `10.0.0.1, garbage, 10.0.0.2` two addresses encode
successfully, and the slots written are 0 and 2, not 0 and 1. -/
theorem populate_slots_not_dense :
    (putsOf (populate BlockTable.Put sampleBlockedIPs (BlockTable.fresh 3)).2).map Prod.fst
      = [0, 2] ∧
    (sampleBlockedIPs.filter encodes).length = 2 ∧
    (putsOf (populate BlockTable.Put sampleBlockedIPs (BlockTable.fresh 3)).2).map Prod.fst
      ≠ List.range (sampleBlockedIPs.filter encodes).length := by
  decide

/-- C5, amended: the slot written for a configured address is its position in
the configuration (as a `uint32`), and the value is its encoding; the writes
are made in configuration order, one per successfully encoded address.  So
when every address of the list encodes successfully (and there are at most
`2^32` of them), the written slots are exactly `0, 1, ..., k-1` and slot `j`
holds the encoding of the `j`-th address. -/
theorem populate_slots_are_config_positions {T : Type}
    (put : T → Nat → Nat → Except String T) (blockedIPs : List GoString) (table : T) :
    putsOf (populate put blockedIPs table).2 = blockedIPs.enum.filterMap writeOf ∧
    ((∀ s ∈ blockedIPs, encodes s = true) → blockedIPs.length ≤ 2 ^ 32 →
      (putsOf (populate put blockedIPs table).2).map Prod.fst
        = List.range blockedIPs.length ∧
      (putsOf (populate put blockedIPs table).2).map Prod.snd
        = blockedIPs.filterMap encoding) := by
  have h1 := putsOf_populateLoop put blockedIPs 0 table
  refine ⟨h1, fun hall hlen => ⟨?_, ?_⟩⟩
  · rw [populate, h1, filterMap_writeOf_fst_of_all blockedIPs 0 hall (by omega),
      List.range_eq_range']
  · rw [populate, h1]; exact filterMap_writeOf_snd blockedIPs 0

/-- C5 amended, at the list `10.0.0.1, 10.0.0.2`: the slots written are 0, 1. -/
theorem populate_slots_are_config_positions_witness :
    (putsOf (populate BlockTable.Put [goString "10.0.0.1", goString "10.0.0.2"]
      (BlockTable.fresh 2)).2).map Prod.fst = [0, 1] :=
  ((populate_slots_are_config_positions BlockTable.Put
      [goString "10.0.0.1", goString "10.0.0.2"] (BlockTable.fresh 2)).2
    (by decide) (by decide)).1

/-- C6: decoding undoes encoding.  For every text `s` without `':'` (a
dotted-quad text) that `ipToUint32` accepts with value `v`, the four big-endian
bytes of `v` printed as decimal octets joined by `'.'` are `s` itself, which is
therefore in canonical form; every canonical dotted quad is accepted and
decodes to itself; and `ipToUint32` is injective on canonical dotted quads. -/
theorem decode_undoes_encode :
    (∀ (s : GoString) (v : Nat), ipToUint32 s = .ok v → 58 ∉ s → decodeUint32 v = s) ∧
    (∀ a b c d : Nat, a ≤ 255 → b ≤ 255 → c ≤ 255 → d ≤ 255 →
      ∃ v, ipToUint32 (dottedQuad a b c d) = .ok v ∧ decodeUint32 v = dottedQuad a b c d) ∧
    (∀ a b c d a1 b1 c1 d1 : Nat, a ≤ 255 → b ≤ 255 → c ≤ 255 → d ≤ 255 →
      a1 ≤ 255 → b1 ≤ 255 → c1 ≤ 255 → d1 ≤ 255 →
      ipToUint32 (dottedQuad a b c d) = ipToUint32 (dottedQuad a1 b1 c1 d1) →
      dottedQuad a b c d = dottedQuad a1 b1 c1 d1) := by
  refine ⟨?_, ?_, ?_⟩
  · intro s v h hno
    rcases ipToUint32_ok_cases s v h with ⟨a, b, c, d, ha, hb, hc, hd, hs, hv⟩ | ⟨hmem, -⟩
    · rw [hv, hs]; exact decodeUint32_encode a b c d ha hb hc hd
    · exact absurd hmem hno
  · intro a b c d ha hb hc hd
    exact ⟨_, ipToUint32_dottedQuad_eq a b c d ha hb hc hd,
      decodeUint32_encode a b c d (by omega) (by omega) (by omega) (by omega)⟩
  · intro a b c d a1 b1 c1 d1 ha hb hc hd ha1 hb1 hc1 hd1 h
    rw [ipToUint32_dottedQuad_eq a b c d ha hb hc hd,
      ipToUint32_dottedQuad_eq a1 b1 c1 d1 ha1 hb1 hc1 hd1] at h
    have h := Except.ok.inj h
    have e1 : a = a1 := by omega
    have e2 : b = b1 := by omega
    have e3 : c = c1 := by omega
    have e4 : d = d1 := by omega
    rw [e1, e2, e3, e4]

/-- C6 at the text `10.0.0.1`. -/
theorem decode_undoes_encode_witness :
    decodeUint32 167772161 = goString "10.0.0.1" :=
  decode_undoes_encode.1 (goString "10.0.0.1") 167772161 (by rfl) (by decide)

/-- C7: for every path whose file can be opened, `loadConfig` selects the
decoder by the extension of the path, the text after its last `'.'` (empty
when the path has no `'.'`): `yaml` and `yml` give the result of the YAML
decoder, `json` the result of the JSON decoder, and every other extension the
"unsupported file extension" error, with no configuration. -/
theorem loadConfig_selects_decoder_by_extension (env : ConfigEnv) (path : GoString)
    (file : List Nat) (hopen : env.osOpen path = .ok file) :
    (46 ∉ path → getFileExtension path = []) ∧
    (∀ pre suf : GoString, path = pre ++ 46 :: suf → 46 ∉ suf →
      getFileExtension path = suf) ∧
    (getFileExtension path = goString "yaml" ∨ getFileExtension path = goString "yml" →
      loadConfig env path =
        (env.yamlDecode file).mapError ConfigError.parseYAML) ∧
    (getFileExtension path = goString "json" →
      loadConfig env path =
        (env.jsonDecode file).mapError ConfigError.parseJSON) ∧
    (getFileExtension path ≠ goString "yaml" → getFileExtension path ≠ goString "yml" →
      getFileExtension path ≠ goString "json" →
      loadConfig env path = .error (.unsupportedExtension (getFileExtension path))) := by
  refine ⟨getFileExtension_no_dot path, ?_, ?_, ?_, ?_⟩
  · intro pre suf hp hs
    rw [hp]
    exact getFileExtension_after_last_dot pre suf hs
  · intro h
    simp only [loadConfig, hopen, h, if_true]
    cases env.yamlDecode file <;> rfl
  · intro h
    have h1 : ¬ (goString "json" = goString "yaml" ∨ goString "json" = goString "yml") := by
      decide
    simp only [loadConfig, hopen, h, h1, if_false, if_true]
    cases env.jsonDecode file <;> rfl
  · intro h1 h2 h3
    simp only [loadConfig, hopen, h1, h2, h3, or_self, if_false]

/-- C7 at the paths `/etc/xdp/config.yaml` and `/etc/xdp/config.toml`. -/
theorem loadConfig_selects_decoder_by_extension_witness :
    getFileExtension (goString "/etc/xdp/config.yaml") = goString "yaml" ∧
    loadConfig sampleConfigEnv (goString "/etc/xdp/config.yaml")
      = .ok { BlockedIPs := [goString "10.0.0.1"] } ∧
    loadConfig sampleConfigEnv (goString "/etc/xdp/config.toml")
      = .error (.unsupportedExtension (goString "toml")) :=
  ⟨(loadConfig_selects_decoder_by_extension sampleConfigEnv (goString "/etc/xdp/config.yaml")
      [] rfl).2.1 (goString "/etc/xdp/config") (goString "yaml") (by decide) (by decide),
   (loadConfig_selects_decoder_by_extension sampleConfigEnv (goString "/etc/xdp/config.yaml")
      [] rfl).2.2.1 (Or.inl (by decide)),
   (loadConfig_selects_decoder_by_extension sampleConfigEnv (goString "/etc/xdp/config.toml")
      [] rfl).2.2.2.2 (by decide) (by decide) (by decide)⟩

/-- C8: when `BlockedIpMap.Put` fails for the entry at position `i` (on the
table as the earlier entries left it), the population loop logs "failed to add
IP to map" with that error right after the call, leaves the table as it was,
and goes on with the entries after `i` exactly as it would have otherwise. -/
theorem populate_reports_failed_put {T : Type} (put : T → Nat → Nat → Except String T)
    (blockedIPs : List GoString) (table : T) (i : Nat) (ip : GoString) (value : Nat)
    (err : String) (hi : blockedIPs.get? i = some ip) (henc : ipToUint32 ip = .ok value)
    (hput : put (populate put (blockedIPs.take i) table).1 (i % 2 ^ 32) value = .error err) :
    (populate put blockedIPs table).2 =
      (populate put (blockedIPs.take i) table).2 ++
        Effect.mapPut (i % 2 ^ 32) value :: Effect.logPutFailed err ::
          (populateLoop put (blockedIPs.drop (i + 1)) (i + 1)
            (populate put (blockedIPs.take i) table).1).2 ∧
    (populate put blockedIPs table).1 =
      (populateLoop put (blockedIPs.drop (i + 1)) (i + 1)
        (populate put (blockedIPs.take i) table).1).1 := by
  have hlt : i < blockedIPs.length := by
    rcases Nat.lt_or_ge i blockedIPs.length with h | h
    · exact h
    · rw [List.get?_eq_none.mpr h] at hi; cases hi
  have hsplit : blockedIPs = blockedIPs.take i ++ ip :: blockedIPs.drop (i + 1) := by
    have h1 : blockedIPs.drop i = ip :: blockedIPs.drop (i + 1) := by
      rw [List.drop_eq_getElem_cons hlt]
      congr 1
      rw [List.get?_eq_getElem?, List.getElem?_eq_getElem hlt] at hi
      exact Option.some.inj hi
    rw [← h1, List.take_append_drop]
  have hlen : (blockedIPs.take i).length = i := by
    rw [List.length_take]; omega
  have key := populateLoop_append put (blockedIPs.take i) (ip :: blockedIPs.drop (i + 1)) 0 table
  rw [← hsplit, hlen, Nat.zero_add] at key
  simp only [populate] at hput ⊢
  rw [key]
  simp only [populateLoop, henc, hput]
  exact ⟨trivial, trivial⟩

/-- C8 on a table with a single slot and three valid addresses: the second
and the third `Put` fail, each failure is logged, and the loop goes on. -/
theorem populate_reports_failed_put_witness :
    (populate BlockTable.Put [goString "10.0.0.1", goString "10.0.0.2", goString "10.0.0.3"]
        (BlockTable.fresh 1)).2 =
      [Effect.mapPut 0 167772161,
       Effect.mapPut 1 167772162, Effect.logPutFailed "capacity exceeded",
       Effect.mapPut 2 167772163, Effect.logPutFailed "capacity exceeded"] :=
  (populate_reports_failed_put BlockTable.Put
    [goString "10.0.0.1", goString "10.0.0.2", goString "10.0.0.3"] (BlockTable.fresh 1)
    1 (goString "10.0.0.2") 167772162 "capacity exceeded" rfl rfl rfl).1

/-- C9: running the population loop a second time with the same list, on the
table the first run left, gives exactly the table of the first run. -/
theorem populate_idempotent (blockedIPs : List GoString) (capacity : Nat) :
    (populate BlockTable.Put blockedIPs
        (populate BlockTable.Put blockedIPs (BlockTable.fresh capacity)).1).1
      = (populate BlockTable.Put blockedIPs (BlockTable.fresh capacity)).1 := by
  obtain ⟨f, hf⟩ := populateLoop_slots blockedIPs 0 capacity
  have h1 := hf (BlockTable.fresh capacity) (by simp [BlockTable.fresh])
  have h2 := hf (populate BlockTable.Put blockedIPs (BlockTable.fresh capacity)).1 h1.1
  simp only [populate] at h1 h2 ⊢
  have : ∀ (a b : BlockTable), a.slots = b.slots → a = b := by
    intro a b h; cases a; cases b; simp_all
  apply this
  apply List.ext_getElem?
  intro k
  rw [h2.2 k, h1.2 k]
  cases f k <;> simp

/-- C10: in every run of `main` the steps performed are a prefix of: load
configuration, load program, table writes, resolve interface, attach, wait for
signal, detach, release.  The run stops at the first fatal step that fails
(configuration load, program load, interface resolution, attach) and exits
with status 1; population is never fatal (once configuration and program are
loaded, the interface is resolved whatever the table writes did, after one
write per valid entry); no table write comes after the attach step; and a
release of the program is always preceded by the detach. -/
theorem main_effect_order {T : Type} (w : World T) :
    (∃ n, stepsOf (main w).1 <+: fullSequence n) ∧
    (∀ err, 2 ≤ w.args.length → loadConfig w.config (w.args.getD 1 []) = .error err →
      stepsOf (main w).1 = [.loadConfig] ∧ (main w).2 = .exit 1) ∧
    (∀ config, 2 ≤ w.args.length → loadConfig w.config (w.args.getD 1 []) = .ok config →
      (∀ err, w.loadDropObjects = .error err →
        stepsOf (main w).1 = [.loadConfig, .loadProgram] ∧ (main w).2 = .exit 1) ∧
      (∀ objs, w.loadDropObjects = .ok objs →
        (stepsOf (main w).1).count .tableWrite = (config.BlockedIPs.filter encodes).length ∧
        Step.resolveInterface ∈ stepsOf (main w).1 ∧
        (∀ err, w.interfaceByName
            (if w.args.length > 2 then w.args.getD 2 [] else goString "eth0") = .error err →
          stepsOf (main w).1 = [.loadConfig, .loadProgram] ++
            List.replicate (config.BlockedIPs.filter encodes).length .tableWrite ++
            [.resolveInterface] ∧ (main w).2 = .exit 1) ∧
        (∀ index err, w.interfaceByName
            (if w.args.length > 2 then w.args.getD 2 [] else goString "eth0") = .ok index →
          w.attachXDP index = .error err →
          stepsOf (main w).1 = [.loadConfig, .loadProgram] ++
            List.replicate (config.BlockedIPs.filter encodes).length .tableWrite ++
            [.resolveInterface, .attach] ∧ (main w).2 = .exit 1))) ∧
    (stepsOf (main w).1).Pairwise (fun a b => a = Step.attach → b ≠ Step.tableWrite) ∧
    (stepsOf (main w).1).Pairwise (fun a b => a = Step.release → b ≠ Step.detach) ∧
    (Step.release ∈ stepsOf (main w).1 → Step.detach ∈ stepsOf (main w).1) := by
  obtain ⟨n, hshape⟩ := main_steps_shape w
  have hpre : stepsOf (main w).1 <+: fullSequence n := by
    rcases hshape with h | h
    · rw [h]
    · exact h.trans (fullSequence_extends n)
  refine ⟨⟨n, hpre⟩, ?_, ?_, (fullSequence_no_write_after_attach n).sublist hpre.sublist,
    (fullSequence_no_detach_after_release n).sublist hpre.sublist, ?_⟩
  · intro err h2 hc
    have h2 : ¬ w.args.length < 2 := by omega
    simp only [main, h2, if_false, hc]
    exact ⟨rfl, trivial⟩
  · intro config h2 hc
    have h2 : ¬ w.args.length < 2 := by omega
    refine ⟨?_, ?_⟩
    · intro err ho
      simp only [main, h2, if_false, hc, ho]
      exact ⟨rfl, trivial⟩
    · intro objs ho
      simp only [main, h2, if_false, hc, ho]
      cases hi : w.interfaceByName
          (if w.args.length > 2 then w.args.getD 2 [] else goString "eth0") with
      | error e =>
        simp [stepsOf, filterMap_stepOf_populate, stepOf, List.count_replicate]
      | ok index =>
        simp only
        cases ha : w.attachXDP index with
        | error e =>
          simp [stepsOf, filterMap_stepOf_populate, stepOf, List.count_replicate]
        | ok u =>
          simp only
          cases hs : w.signalArrives <;>
            simp [stepsOf, filterMap_stepOf_populate, stepOf, List.count_replicate] <;>
            exact fun index1 err hidx => by subst hidx; simp [ha]
  · intro hr
    rcases hshape with h | h
    · rw [h]; simp [fullSequence]
    · exfalso
      have := h.subset hr
      simp [List.mem_replicate] at this

/-- C10 in a world where the configuration names one valid address and the
interface does not exist: the run stops at the interface resolution. -/
theorem main_effect_order_witness :
    stepsOf (main sampleWorld).1
      = [.loadConfig, .loadProgram, .tableWrite, .resolveInterface] ∧
    (main sampleWorld).2 = .exit 1 :=
  ((((main_effect_order sampleWorld).2.2.1 { BlockedIPs := [goString "10.0.0.1"] }
    (by decide) rfl).2 (BlockTable.fresh 0) rfl).2.2.1 "no such network interface" rfl)

end XdpFirewall
